import Mathlib

set_option maxHeartbeats 1000000

/-!
Formal model of the cangaroo hardware CAN-filter compiler.

The development shallowly embeds the filter compiler of the repository:

* `canfilter_bxcan.cpp` — the bxCAN back-end: CIDR-style decomposition of
  inclusive ID ranges into aligned power-of-two (base, mask) blocks, the
  std-list / std-mask / ext-list accumulators, and bank emission into the
  register image (`fr1`, `fr2`, `fs1r`, `fm1r`, `fa1r`).
* `canfilter_fdcan.cpp` — the FDCAN back-end: dual-ID pairing and direct
  range elements in `std_filter` / `ext_filter` tables.
* `canfilter.cpp` — the textual filter-list parser (built on C `strtoul`
  with base 0), dispatching directives to a builder.
* `HardwareFilter.cpp` — the orchestration sequence, modelled over an
  abstract environment describing the outcome of each external step.

Machine integers are modelled as `Nat`; all C++ values involved stay far
below `2^32`, except where a 32-bit truncation is semantically relevant
(`~0U` complements, `strtoul` results), which is made explicit with
`% 2^32` / subtractions from `2^32 - 1`.

C++ loops are modelled by structural recursion on an explicit bound
(`fuel`) chosen so that the loop body is reproduced verbatim; a lemma shows
the result does not depend on the bound once it is large enough.
-/

/-- Error codes of the filter builders (`canfilter_error_t`). -/
inductive canfilter_error where
  | success
  | param
  | full
  | platform
deriving DecidableEq, Repr

open canfilter_error

/-- `canfilter::max_std_id`: largest standard (11-bit) CAN identifier. -/
def max_std_id : Nat := 0x7FF

/-- `canfilter::max_ext_id`: largest extended (29-bit) CAN identifier. -/
def max_ext_id : Nat := 0x1FFFFFFF

/-! ## Largest aligned prefix (`std_largest_prefix` / `ext_largest_prefix`)

The C++ code has two identical copies of the computation, one with the
literal 11 (`std_largest_prefix`) and one with 29 (`ext_largest_prefix`);
here the bit width `W` is a parameter.  The first loop decrements the
prefix length while the base is aligned to ever larger blocks, the second
grows it back until the block fits under `e`. -/

/-- First loop: `while (prefix > 0) { if (begin & (1 << (W - prefix))) break; prefix--; }`. -/
def lp_down (W b : Nat) : Nat → Nat
  | 0 => 0
  | p + 1 => if b.testBit (W - (p + 1)) then p + 1 else lp_down W b p

/-- Second loop: `while (p < W) { if (b + (1 << (W - p)) - 1 > e) p++; else break; }`,
written with `n = W - p` (the block exponent) as the structurally decreasing
argument; `lp_up` below supplies `n = W - p`. -/
def lp_up_go (b e : Nat) : Nat → Nat → Nat
  | 0, p => p
  | n + 1, p => if b + 2 ^ (n + 1) - 1 > e then lp_up_go b e n (p + 1) else p

def lp_up (W b e p : Nat) : Nat :=
  lp_up_go b e (W - p) p

/-- `std_largest_prefix` (`W = 11`) and `ext_largest_prefix` (`W = 29`). -/
def largest_pfx (W b e : Nat) : Nat :=
  lp_up W b e (lp_down W b W)

/-- The mask the decomposition loop computes for a prefix length `p`:
`(~0U << (W - p)) & MAX`, with the 32-bit truncation of `~0U << k` explicit. -/
def blockMask (W p : Nat) : Nat :=
  (((2 ^ 32 - 1) <<< (W - p)) % 2 ^ 32) &&& (2 ^ W - 1)

/-- One step of the decomposition loop body of `add_std_range` /
`add_ext_range`, as a pure list of emitted `(id, mask)` blocks; `fuel`
bounds the iteration count (each step advances `begin` by at least 1). -/
def rb_go (W e : Nat) : Nat → Nat → List (Nat × Nat)
  | 0, _ => []
  | fuel + 1, b =>
    if b ≤ e then
      (b, blockMask W (largest_pfx W b e)) ::
        rb_go W e fuel (b + 2 ^ (W - largest_pfx W b e))
    else []

/-- The sequence of `(id, mask)` blocks emitted by the decomposition loop of
`add_std_range` (`W = 11`) / `add_ext_range` (`W = 29`) on the ordered range
`[b, e]`. -/
def rangeBlocks (W b e : Nat) : List (Nat × Nat) :=
  rb_go W e (e + 1 - b) b

/-- First identifier matched by a block (its base). -/
def blockLo (blk : Nat × Nat) : Nat := blk.1

/-- Last identifier matched by a block, decoded as the spec and the debug
printer do: `(base | ~mask) & MAX` with a 32-bit complement. -/
def blockHi (W : Nat) (blk : Nat × Nat) : Nat :=
  (blk.1 ||| ((2 ^ 32 - 1) - blk.2)) &&& (2 ^ W - 1)

/-- `x` is matched by block `blk` of the width-`W` space. -/
def blkCovers (W : Nat) (blk : Nat × Nat) (x : Nat) : Prop :=
  blockLo blk ≤ x ∧ x ≤ blockHi W blk

/-- Two blocks match disjoint sets of identifiers. -/
def blkDisjoint (W : Nat) (p q : Nat × Nat) : Prop :=
  ∀ x, ¬(blkCovers W p x ∧ blkCovers W q x)

example : largest_pfx 11 0 0x7FF = 0 := by decide
example : largest_pfx 11 0 0xFF = 3 := by decide
example : rangeBlocks 11 0 0x2FF = [(0, 0x600), (0x200, 0x700)] := by decide
example : rangeBlocks 11 5 5 = [(5, 0x7FF)] := by decide
example : blockHi 11 (0x200, 0x700) = 0x2FF := by decide

/-! ## Properties of the largest-prefix computation -/

theorem lp_down_le (W b : Nat) : ∀ p, lp_down W b p ≤ p := by
  intro p
  induction p with
  | zero => simp [lp_down]
  | succ p ih =>
    simp only [lp_down]
    split
    · exact Nat.le_refl _
    · exact Nat.le_trans ih (Nat.le_succ _)

theorem testBit_false_of_two_pow_succ_dvd {b k : Nat} (h : 2 ^ (k + 1) ∣ b) :
    b.testBit k = false := by
  rcases h with ⟨m, rfl⟩
  rw [Nat.testBit_mul_pow_two]
  have : ¬(k ≥ k + 1) := by omega
  simp [this]

theorem two_pow_succ_dvd_of_testBit_false {b k : Nat} (hd : 2 ^ k ∣ b)
    (h : b.testBit k = false) : 2 ^ (k + 1) ∣ b := by
  rcases hd with ⟨m, rfl⟩
  rw [Nat.testBit_mul_pow_two] at h
  simp [Nat.testBit_zero] at h
  have hm : m % 2 = 0 := by omega
  rcases Nat.dvd_of_mod_eq_zero hm with ⟨m', rfl⟩
  exact ⟨m', by ring⟩

theorem lp_down_dvd (W b : Nat) : ∀ p, p ≤ W → 2 ^ (W - p) ∣ b →
    2 ^ (W - lp_down W b p) ∣ b := by
  intro p
  induction p with
  | zero => intro _ h; simpa [lp_down] using h
  | succ p ih =>
    intro hpW h
    simp only [lp_down]
    split
    · exact h
    · rename_i hbit
      refine ih (Nat.le_trans (Nat.le_succ _) hpW) ?_
      have hk : W - p = (W - (p + 1)) + 1 := by omega
      rw [hk]
      exact two_pow_succ_dvd_of_testBit_false h (by simpa using hbit)

theorem lp_down_bit (W b : Nat) : ∀ p, 0 < lp_down W b p →
    b.testBit (W - lp_down W b p) = true := by
  intro p
  induction p with
  | zero => simp [lp_down]
  | succ p ih =>
    simp only [lp_down]
    split
    · intro _; assumption
    · exact ih

/-- Any aligned power of two that fits under `e < 2^W` is bounded by the
alignment found by the first loop. -/
theorem lp_down_max (W b e k : Nat) (he : e < 2 ^ W) (hdvd : 2 ^ k ∣ b)
    (hfit : b + 2 ^ k - 1 ≤ e) : k ≤ W - lp_down W b W := by
  by_cases hz : lp_down W b W = 0
  · -- any fitting block is at most the whole space
    have h1 : 2 ^ k ≤ 2 ^ W := by
      have : 2 ^ k ≤ e + 1 := by
        have := Nat.two_pow_pos k
        omega
      omega
    have := (Nat.pow_le_pow_iff_right (by omega : 1 < 2)).mp h1
    omega
  · by_contra hk
    have hbit : b.testBit (W - lp_down W b W) = true :=
      lp_down_bit W b W (Nat.pos_of_ne_zero hz)
    have hdvd' : 2 ^ ((W - lp_down W b W) + 1) ∣ b := by
      refine Nat.dvd_trans (Nat.pow_dvd_pow 2 ?_) hdvd
      omega
    rw [testBit_false_of_two_pow_succ_dvd hdvd'] at hbit
    exact Bool.noConfusion hbit

theorem lp_up_go_ge (b e : Nat) : ∀ n p, p ≤ lp_up_go b e n p := by
  intro n
  induction n with
  | zero => intro p; simp [lp_up_go]
  | succ n ih =>
    intro p
    simp only [lp_up_go]
    split
    · exact Nat.le_trans (Nat.le_succ _) (ih (p + 1))
    · exact Nat.le_refl _

theorem lp_up_go_le (b e : Nat) : ∀ n p, lp_up_go b e n p ≤ p + n := by
  intro n
  induction n with
  | zero => intro p; simp [lp_up_go]
  | succ n ih =>
    intro p
    simp only [lp_up_go]
    split
    · exact Nat.le_trans (ih (p + 1)) (by omega)
    · omega

theorem lp_up_go_fit (b e : Nat) (hbe : b ≤ e) : ∀ n p, p + n = W →
    b + 2 ^ (W - lp_up_go b e n p) - 1 ≤ e := by
  intro n
  induction n with
  | zero =>
    intro p hp
    simp only [lp_up_go]
    have : W - p = 0 := by omega
    simp [this]
    omega
  | succ n ih =>
    intro p hp
    simp only [lp_up_go]
    split
    · exact ih (p + 1) (by omega)
    · rename_i hno
      have : W - p = n + 1 := by omega
      rw [this]
      omega

theorem lp_up_go_min (b e : Nat) : ∀ n p q, p ≤ q → q < lp_up_go b e n p →
    b + 2 ^ (p + n - q) - 1 > e := by
  intro n
  induction n with
  | zero =>
    intro p q hpq hq
    simp only [lp_up_go] at hq
    omega
  | succ n ih =>
    intro p q hpq hq
    simp only [lp_up_go] at hq
    by_cases hg : b + 2 ^ (n + 1) - 1 > e
    · rw [if_pos hg] at hq
      by_cases hq0 : q = p
      · subst hq0
        have harr : q + (n + 1) - q = n + 1 := by omega
        rw [harr]
        exact hg
      · have hlt : p + 1 ≤ q := by omega
        have hres := ih (p + 1) q hlt hq
        have harr : p + 1 + n - q = p + (n + 1) - q := by omega
        rwa [harr] at hres
    · rw [if_neg hg] at hq
      omega

/-- The prefix returned is at most the bit width. -/
theorem pfx_le (W b e : Nat) : largest_pfx W b e ≤ W := by
  unfold largest_pfx lp_up
  have h1 := lp_down_le W b W
  have h2 := lp_up_go_le b e (W - lp_down W b W) (lp_down W b W)
  omega

/-- The chosen block is aligned: its size divides the base. -/
theorem pfx_align (W b e : Nat) : 2 ^ (W - largest_pfx W b e) ∣ b := by
  unfold largest_pfx lp_up
  have hd : 2 ^ (W - lp_down W b W) ∣ b := by
    refine lp_down_dvd W b W (Nat.le_refl _) ?_
    simp
  have hge := lp_up_go_ge b e (W - lp_down W b W) (lp_down W b W)
  exact Nat.dvd_trans (Nat.pow_dvd_pow 2 (by omega)) hd

/-- The chosen block fits inside the range. -/
theorem pfx_fit (W b e : Nat) (hbe : b ≤ e) :
    b + 2 ^ (W - largest_pfx W b e) - 1 ≤ e := by
  unfold largest_pfx lp_up
  have h1 := lp_down_le W b W
  exact lp_up_go_fit b e hbe (W - lp_down W b W) (lp_down W b W) (by omega)

/-- Maximality: any aligned power-of-two block at `b` that fits inside
`[b, e]` is no larger than the chosen block. -/
theorem pfx_max (W b e k : Nat) (he : e < 2 ^ W) (hdvd : 2 ^ k ∣ b)
    (hfit : b + 2 ^ k - 1 ≤ e) :
    2 ^ k ≤ 2 ^ (W - largest_pfx W b e) := by
  have hkW : k ≤ W - lp_down W b W := lp_down_max W b e k he hdvd hfit
  have hdle : lp_down W b W ≤ W := lp_down_le W b W
  have hud : lp_down W b W ≤ largest_pfx W b e := by
    unfold largest_pfx lp_up
    exact lp_up_go_ge b e _ _
  have huW : largest_pfx W b e ≤ W := pfx_le W b e
  by_cases hq : W - k < largest_pfx W b e
  · exfalso
    have hq' : W - k < lp_up_go b e (W - lp_down W b W) (lp_down W b W) := by
      unfold largest_pfx lp_up at hq
      exact hq
    have hmin := lp_up_go_min b e (W - lp_down W b W) (lp_down W b W) (W - k)
      (by omega) hq'
    have harr : lp_down W b W + (W - lp_down W b W) - (W - k) = k := by omega
    rw [harr] at hmin
    omega
  · exact Nat.pow_le_pow_right (by omega) (by omega)

/-! ## Decoding the emitted masks -/

theorem sub_mod_of_dvd {X B C : Nat} (_hC : 0 < C) (hdvd : C ∣ X) (hB1 : 1 ≤ B)
    (hBC : B ≤ C) (hCX : C ≤ X) : (X - B) % C = C - B := by
  rcases hdvd with ⟨q, rfl⟩
  have h3 : C * (q - 1) = C * q - C := Nat.mul_sub_left_distrib C q 1 ▸ by
    rw [Nat.mul_one]
  have h1 : C * q - B = C * (q - 1) + (C - B) := by omega
  rw [h1, Nat.mul_add_mod]
  exact Nat.mod_eq_of_lt (by omega)

/-- The 32-bit mask `(~0U << (W - p)) & (2^W - 1)` written arithmetically. -/
theorem blockMask_eq (W p : Nat) (hW : W ≤ 32) (hp : p ≤ W) :
    blockMask W p = 2 ^ W - 2 ^ (W - p) := by
  unfold blockMask
  rw [Nat.and_pow_two_sub_one_eq_mod, Nat.mod_mod_of_dvd _ (pow_dvd_pow 2 hW),
    Nat.shiftLeft_eq]
  have h1 : (2 ^ 32 - 1) * 2 ^ (W - p) = 2 ^ (32 + (W - p)) - 2 ^ (W - p) := by
    rw [Nat.mul_sub_right_distrib, Nat.one_mul, pow_add]
  rw [h1]
  exact sub_mod_of_dvd (Nat.two_pow_pos W) (pow_dvd_pow 2 (by omega))
    Nat.one_le_two_pow (Nat.pow_le_pow_right (by omega) (by omega))
    (Nat.pow_le_pow_right (by omega) (by omega))

theorem blockMask_le (W p : Nat) (hW : W ≤ 32) (hp : p ≤ W) :
    blockMask W p ≤ 2 ^ W - 1 := by
  rw [blockMask_eq W p hW hp]
  have := Nat.two_pow_pos (W - p)
  omega

/-- The mask is all-ones exactly for a size-one block. -/
theorem blockMask_eq_max_iff (W p : Nat) (hW : W ≤ 32) (hp : p ≤ W) :
    blockMask W p = 2 ^ W - 1 ↔ p = W := by
  rw [blockMask_eq W p hW hp]
  constructor
  · intro h
    have h1 : 2 ^ (W - p) = 1 := by
      have h2 : 2 ^ (W - p) ≤ 2 ^ W := Nat.pow_le_pow_right (by omega) (by omega)
      have h3 := Nat.one_le_two_pow (n := W)
      have h4 := Nat.one_le_two_pow (n := W - p)
      omega
    have h5 : W - p = 0 := by
      by_contra hne
      have : 2 ^ 1 ≤ 2 ^ (W - p) := Nat.pow_le_pow_right (by omega) (by omega)
      omega
    omega
  · intro h
    subst h
    simp

/-- Complement of the mask inside the W-bit space. -/
theorem blockMaskCompl_eq (W p : Nat) (hW : W ≤ 32) (hp : p ≤ W) :
    (2 ^ 32 - 1 - blockMask W p) &&& (2 ^ W - 1) = 2 ^ (W - p) - 1 := by
  rw [blockMask_eq W p hW hp, Nat.and_pow_two_sub_one_eq_mod]
  have h2 : 2 ^ W * 2 ^ (32 - W) = 2 ^ 32 := by
    rw [← pow_add]
    congr 1
    omega
  have h3 : 2 ^ W * (2 ^ (32 - W) - 1) = 2 ^ 32 - 2 ^ W := by
    rw [Nat.mul_sub_left_distrib, Nat.mul_one, h2]
  have hk : 2 ^ (W - p) ≤ 2 ^ W := Nat.pow_le_pow_right (by omega) (by omega)
  have hW32 : 2 ^ W ≤ 2 ^ 32 := Nat.pow_le_pow_right (by omega) hW
  have hk1 := Nat.one_le_two_pow (n := W - p)
  have hW1 := Nat.one_le_two_pow (n := W)
  have h1 : 2 ^ 32 - 1 - (2 ^ W - 2 ^ (W - p)) =
      2 ^ W * (2 ^ (32 - W) - 1) + (2 ^ (W - p) - 1) := by omega
  rw [h1, Nat.mul_add_mod]
  exact Nat.mod_eq_of_lt (by omega)

/-- Decoded upper end of an aligned block: `(b | ~mask) & (2^W - 1) = b + size - 1`. -/
theorem blockHi_eq (W p b : Nat) (hW : W ≤ 32) (hp : p ≤ W) (hb : b < 2 ^ W)
    (halign : 2 ^ (W - p) ∣ b) :
    blockHi W (b, blockMask W p) = b + 2 ^ (W - p) - 1 := by
  unfold blockHi
  rw [Nat.and_distrib_right, Nat.and_pow_two_sub_one_of_lt_two_pow hb]
  show b ||| ((2 ^ 32 - 1 - blockMask W p) &&& (2 ^ W - 1)) = _
  rw [blockMaskCompl_eq W p hW hp]
  rcases halign with ⟨q, hq⟩
  subst hq
  rw [← Nat.mul_add_lt_is_or (by have := Nat.two_pow_pos (W - p); omega) q]
  have := Nat.one_le_two_pow (n := W - p)
  omega

/-! ## Exact cover and disjointness of the decomposition (claim C1 machinery) -/

theorem rb_go_lo (W e : Nat) : ∀ fuel b blk, blk ∈ rb_go W e fuel b → b ≤ blk.1 := by
  intro fuel
  induction fuel with
  | zero => intro b blk h; simp [rb_go] at h
  | succ fuel ih =>
    intro b blk h
    simp only [rb_go] at h
    by_cases hbe : b ≤ e
    · rw [if_pos hbe] at h
      rcases List.mem_cons.mp h with rfl | htail
      · exact Nat.le_refl _
      · have := ih _ _ htail
        have hpos := Nat.two_pow_pos (W - largest_pfx W b e)
        omega
    · rw [if_neg hbe] at h
      simp at h

theorem rb_go_cover (W e : Nat) (hW : W ≤ 32) (he : e < 2 ^ W) :
    ∀ fuel b, e + 1 - b ≤ fuel →
      ∀ x, (∃ blk ∈ rb_go W e fuel b, blkCovers W blk x) ↔ (b ≤ x ∧ x ≤ e) := by
  intro fuel
  induction fuel with
  | zero =>
    intro b hfuel x
    simp only [rb_go]
    simp only [List.not_mem_nil, false_and, exists_false, false_iff]
    omega
  | succ fuel ih =>
    intro b hfuel x
    simp only [rb_go]
    by_cases hbe : b ≤ e
    · rw [if_pos hbe]
      have hb : b < 2 ^ W := by omega
      have hp : largest_pfx W b e ≤ W := pfx_le W b e
      have halign := pfx_align W b e
      have hfit := pfx_fit W b e hbe
      have hhi := blockHi_eq W (largest_pfx W b e) b hW hp hb halign
      have hpos := Nat.two_pow_pos (W - largest_pfx W b e)
      have hih := ih (b + 2 ^ (W - largest_pfx W b e)) (by omega) x
      constructor
      · rintro ⟨blk, hmem, hcov⟩
        rcases List.mem_cons.mp hmem with rfl | htail
        · rcases hcov with ⟨hlo, hhi'⟩
          unfold blockLo at hlo
          rw [hhi] at hhi'
          simp only at hlo hhi'
          omega
        · have := hih.mp ⟨blk, htail, hcov⟩
          omega
      · rintro ⟨hbx, hxe⟩
        by_cases hx : x ≤ b + 2 ^ (W - largest_pfx W b e) - 1
        · refine ⟨_, List.mem_cons_self _ _, ?_⟩
          unfold blkCovers blockLo
          rw [hhi]
          exact ⟨hbx, hx⟩
        · rcases hih.mpr ⟨by omega, hxe⟩ with ⟨blk, htail, hcov⟩
          exact ⟨blk, List.mem_cons_of_mem _ htail, hcov⟩
    · rw [if_neg hbe]
      simp only [List.not_mem_nil, false_and, exists_false, false_iff]
      omega

theorem rb_go_disjoint (W e : Nat) (hW : W ≤ 32) (he : e < 2 ^ W) :
    ∀ fuel b, e + 1 - b ≤ fuel →
      List.Pairwise (blkDisjoint W) (rb_go W e fuel b) := by
  intro fuel
  induction fuel with
  | zero => intro b hfuel; simp [rb_go]
  | succ fuel ih =>
    intro b hfuel
    simp only [rb_go]
    by_cases hbe : b ≤ e
    · rw [if_pos hbe]
      have hb : b < 2 ^ W := by omega
      have hp : largest_pfx W b e ≤ W := pfx_le W b e
      have hhi := blockHi_eq W (largest_pfx W b e) b hW hp hb (pfx_align W b e)
      have hpos := Nat.two_pow_pos (W - largest_pfx W b e)
      refine List.Pairwise.cons ?_ (ih _ (by omega))
      intro blk htail x ⟨hcx, hcx'⟩
      have hlo := rb_go_lo W e fuel _ blk htail
      rcases hcx with ⟨h1, h2⟩
      rcases hcx' with ⟨h3, _⟩
      unfold blockLo at h1 h3
      rw [hhi] at h2
      simp only at h1 h2
      omega
    · rw [if_neg hbe]
      simp

/-- Every emitted block is an aligned block `(base, blockMask W p)` that fits
inside the remaining range. -/
theorem rb_go_shape (W e : Nat) : ∀ fuel b blk, blk ∈ rb_go W e fuel b →
    ∃ p, p ≤ W ∧ blk.2 = blockMask W p ∧ 2 ^ (W - p) ∣ blk.1 ∧ blk.1 ≤ e ∧
      blk.1 + 2 ^ (W - p) - 1 ≤ e := by
  intro fuel
  induction fuel with
  | zero => intro b blk h; simp [rb_go] at h
  | succ fuel ih =>
    intro b blk h
    simp only [rb_go] at h
    by_cases hbe : b ≤ e
    · rw [if_pos hbe] at h
      rcases List.mem_cons.mp h with rfl | htail
      · exact ⟨largest_pfx W b e, pfx_le W b e, rfl, pfx_align W b e, hbe,
          pfx_fit W b e hbe⟩
      · exact ih _ blk htail
    · rw [if_neg hbe] at h
      simp at h

/-- C1: for endpoints in the 11-bit space, the blocks that `add_std_range`
emits (a list ID being the degenerate block whose mask is `0x7FF`) are
pairwise disjoint, a block with the all-ones mask decodes to the single
point at its base, and the union of the decoded intervals
`base..(base|~mask)&0x7FF` is exactly `[min a b, max a b]`; the analogous
statement holds for `add_ext_range` in the 29-bit space. -/
theorem bxcan_range_cover_exact (a b : Nat) :
    (a ≤ max_std_id → b ≤ max_std_id →
      List.Pairwise (blkDisjoint 11) (rangeBlocks 11 (min a b) (max a b)) ∧
      (∀ blk ∈ rangeBlocks 11 (min a b) (max a b),
        blk.2 = max_std_id → blockHi 11 blk = blockLo blk) ∧
      (∀ x, (∃ blk ∈ rangeBlocks 11 (min a b) (max a b), blkCovers 11 blk x) ↔
        (min a b ≤ x ∧ x ≤ max a b))) ∧
    (a ≤ max_ext_id → b ≤ max_ext_id →
      List.Pairwise (blkDisjoint 29) (rangeBlocks 29 (min a b) (max a b)) ∧
      (∀ blk ∈ rangeBlocks 29 (min a b) (max a b),
        blk.2 = max_ext_id → blockHi 29 blk = blockLo blk) ∧
      (∀ x, (∃ blk ∈ rangeBlocks 29 (min a b) (max a b), blkCovers 29 blk x) ↔
        (min a b ≤ x ∧ x ≤ max a b))) := by
  have key : ∀ W MAX, MAX = 2 ^ W - 1 → W ≤ 32 → a ≤ MAX → b ≤ MAX →
      List.Pairwise (blkDisjoint W) (rangeBlocks W (min a b) (max a b)) ∧
      (∀ blk ∈ rangeBlocks W (min a b) (max a b),
        blk.2 = MAX → blockHi W blk = blockLo blk) ∧
      (∀ x, (∃ blk ∈ rangeBlocks W (min a b) (max a b), blkCovers W blk x) ↔
        (min a b ≤ x ∧ x ≤ max a b)) := by
    intro W MAX hMAX hW ha hb
    have hW1 := Nat.one_le_two_pow (n := W)
    have he : max a b < 2 ^ W := by
      rcases Nat.le_total a b with h | h <;> simp [Nat.max_def, Nat.min_def, h] <;> omega
    refine ⟨?_, ?_, ?_⟩
    · exact rb_go_disjoint W (max a b) hW he _ _ (Nat.le_refl _)
    · intro blk hmem hmask
      rcases rb_go_shape W (max a b) _ _ blk hmem with ⟨p, hpW, hbm, halign, hble, _⟩
      have hpW' : p = W := by
        rw [← blockMask_eq_max_iff W p hW hpW, ← hbm, hmask, hMAX]
      rw [hpW'] at hbm halign
      have hb2 : blk.1 < 2 ^ W := by omega
      have hhi := blockHi_eq W W blk.1 hW (Nat.le_refl _) hb2 halign
      have hblk : blk = (blk.1, blockMask W W) := by
        rw [← hbm]
      rw [hblk, hhi]
      simp [blockLo]
    · exact rb_go_cover W (max a b) hW he _ _ (Nat.le_refl _)
  constructor
  · intro ha hb
    exact key 11 max_std_id (by decide) (by omega) ha hb
  · intro ha hb
    exact key 29 max_ext_id (by decide) (by omega) ha hb

/-- Witness for C1 at the concrete range `0x200..0x2FF` (std) and
`0x1FFF0000..0x1FFFFFFF` (ext), evaluated at sample points. -/
theorem bxcan_range_cover_exact_witness :
    (List.Pairwise (blkDisjoint 11) (rangeBlocks 11 (min 0x200 0x2FF) (max 0x200 0x2FF)) ∧
      ((∃ blk ∈ rangeBlocks 11 (min 0x200 0x2FF) (max 0x200 0x2FF),
        blkCovers 11 blk 0x234) ↔ (min 0x200 0x2FF ≤ 0x234 ∧ 0x234 ≤ max 0x200 0x2FF))) ∧
    (List.Pairwise (blkDisjoint 29) (rangeBlocks 29 (min 0x1FFF0000 0x1FFFFFFF) (max 0x1FFF0000 0x1FFFFFFF)) ∧
      ((∃ blk ∈ rangeBlocks 29 (min 0x1FFF0000 0x1FFFFFFF) (max 0x1FFF0000 0x1FFFFFFF),
        blkCovers 29 blk 0x1FFFFF00) ↔
        (min 0x1FFF0000 0x1FFFFFFF ≤ 0x1FFFFF00 ∧ 0x1FFFFF00 ≤ max 0x1FFF0000 0x1FFFFFFF))) := by
  have h1 := (bxcan_range_cover_exact 0x200 0x2FF).1 (by decide) (by decide)
  have h2 := (bxcan_range_cover_exact 0x1FFF0000 0x1FFFFFFF).2 (by decide) (by decide)
  exact ⟨⟨h1.1, h1.2.2 0x234⟩, ⟨h2.1, h2.2.2 0x1FFFFF00⟩⟩

/-! ## Minimality of the greedy decomposition (claim C2 machinery)

A competing cover is any list of address-aligned power-of-two blocks —
exactly the blocks expressible as one bxCAN base/mask pair — that tiles the
range: disjoint blocks whose union is exactly the range. -/

/-- Membership in an aligned block given as `(base, size exponent)`. -/
def blkIn (blk : Nat × Nat) (x : Nat) : Prop :=
  blk.1 ≤ x ∧ x ≤ blk.1 + 2 ^ blk.2 - 1

/-- `l` is a disjoint exact cover of `[a, e]` by aligned power-of-two blocks. -/
def IsCIDRCover (l : List (Nat × Nat)) (a e : Nat) : Prop :=
  (∀ blk ∈ l, 2 ^ blk.2 ∣ blk.1) ∧
  (∀ x, (∃ blk ∈ l, blkIn blk x) ↔ a ≤ x ∧ x ≤ e) ∧
  List.Pairwise (fun p q => ∀ x, ¬(blkIn p x ∧ blkIn q x)) l

theorem length_filter_lt {α : Type} (p : α → Bool) (l : List α) (x : α)
    (hx : x ∈ l) (hpx : p x = false) : (l.filter p).length < l.length := by
  induction l with
  | nil => simp at hx
  | cons a l ih =>
    rcases List.mem_cons.mp hx with rfl | hxl
    · have hle := List.length_filter_le p l
      simp [List.filter_cons, hpx]
      omega
    · rw [List.filter_cons]
      by_cases hpa : p a = true
      · rw [if_pos hpa]
        have := ih hxl
        simp only [List.length_cons]
        omega
      · rw [if_neg hpa]
        have := ih hxl
        simp only [List.length_cons]
        omega

/-- No aligned power-of-two block inside `[a, e]` straddles the boundary of
the greedy block at `a`: it lies inside the greedy block or after it. -/
theorem no_cross (W a e base k : Nat) (he : e < 2 ^ W)
    (hdvd : 2 ^ k ∣ base) (hlo : a ≤ base) (hhi : base + 2 ^ k - 1 ≤ e) :
    base + 2 ^ k - 1 ≤ a + 2 ^ (W - largest_pfx W a e) - 1 ∨
    a + 2 ^ (W - largest_pfx W a e) ≤ base := by
  by_contra hcross
  push_neg at hcross
  rcases hcross with ⟨hcross1, hcross2⟩
  have hs1 := Nat.one_le_two_pow (n := W - largest_pfx W a e)
  have hk1 := Nat.one_le_two_pow (n := k)
  have halign := pfx_align W a e
  rcases Nat.lt_or_ge (2 ^ (W - largest_pfx W a e)) (2 ^ k) with hks | hks
  · -- the block is strictly larger than the greedy block: its base is the
    -- greedy base, contradicting greedy maximality
    have hkgt : W - largest_pfx W a e < k :=
      (Nat.pow_lt_pow_iff_right (by omega)).mp hks
    have hsb : 2 ^ (W - largest_pfx W a e) ∣ base :=
      Nat.dvd_trans (Nat.pow_dvd_pow 2 (by omega)) hdvd
    have hsba : 2 ^ (W - largest_pfx W a e) ∣ base - a := Nat.dvd_sub' hsb halign
    have hba : base = a := by
      rcases Nat.eq_zero_or_pos (base - a) with hz | hpos
      · omega
      · have := Nat.le_of_dvd hpos hsba
        omega
    subst hba
    have := pfx_max W base e k he hdvd hhi
    omega
  · -- the block is no larger than the greedy block, yet pokes out of it
    have hkle : k ≤ W - largest_pfx W a e :=
      (Nat.pow_le_pow_iff_right (by omega)).mp hks
    have hka : 2 ^ k ∣ a :=
      Nat.dvd_trans (Nat.pow_dvd_pow 2 hkle) halign
    have hkm : 2 ^ k ∣ a + 2 ^ (W - largest_pfx W a e) :=
      Nat.dvd_add hka (Nat.pow_dvd_pow 2 hkle)
    have hkd : 2 ^ k ∣ a + 2 ^ (W - largest_pfx W a e) - base :=
      Nat.dvd_sub' hkm hdvd
    have := Nat.le_of_dvd (by omega) hkd
    omega

theorem rb_go_nil (W e fuel b : Nat) (hbe : e < b) : rb_go W e fuel b = [] := by
  cases fuel with
  | zero => rfl
  | succ fuel =>
    simp only [rb_go]
    rw [if_neg (by omega)]

/-- The greedy decomposition uses no more blocks than any disjoint exact
aligned power-of-two cover. -/
theorem rb_go_min (W e : Nat) (he : e < 2 ^ W) :
    ∀ fuel a l, e + 1 - a ≤ fuel → a ≤ e → IsCIDRCover l a e →
      (rb_go W e fuel a).length ≤ l.length := by
  intro fuel
  induction fuel with
  | zero => intro a l hfuel hae _; omega
  | succ fuel ih =>
    intro a l hfuel hae hcov
    rcases hcov with ⟨hal, hiff, hdisj⟩
    have hs1 := Nat.one_le_two_pow (n := W - largest_pfx W a e)
    have hfit := pfx_fit W a e hae
    -- every block of the cover lies inside [a, e]
    have hsub : ∀ blk ∈ l, a ≤ blk.1 ∧ blk.1 + 2 ^ blk.2 - 1 ≤ e := by
      intro blk hm
      have hin1 : blkIn blk blk.1 := by
        unfold blkIn
        have := Nat.one_le_two_pow (n := blk.2)
        omega
      have hin2 : blkIn blk (blk.1 + 2 ^ blk.2 - 1) := by
        unfold blkIn
        have := Nat.one_le_two_pow (n := blk.2)
        omega
      have h1 := (hiff blk.1).mp ⟨blk, hm, hin1⟩
      have h2 := (hiff (blk.1 + 2 ^ blk.2 - 1)).mp ⟨blk, hm, hin2⟩
      omega
    -- a block of the cover containing `a`
    rcases (hiff a).mpr ⟨Nat.le_refl a, hae⟩ with ⟨blk0, hblk0, hin0⟩
    have hblk0a : blk0.1 ≤ a := hin0.1
    -- the blocks beyond the greedy block
    have hfilter0 : (fun blk => decide (a + 2 ^ (W - largest_pfx W a e) ≤ blk.1)) blk0 = false := by
      simp only [decide_eq_false_iff_not]
      omega
    have hlen := length_filter_lt
      (fun blk => decide (a + 2 ^ (W - largest_pfx W a e) ≤ blk.1)) l blk0 hblk0 hfilter0
    simp only [rb_go]
    rw [if_pos hae, List.length_cons]
    by_cases hnext : a + 2 ^ (W - largest_pfx W a e) ≤ e
    · -- the tail of the cover exactly covers the rest of the range
      have hcov' : IsCIDRCover
          (l.filter (fun blk => decide (a + 2 ^ (W - largest_pfx W a e) ≤ blk.1)))
          (a + 2 ^ (W - largest_pfx W a e)) e := by
        refine ⟨?_, ?_, ?_⟩
        · intro blk hm
          exact hal blk (List.mem_of_mem_filter hm)
        · intro x
          constructor
          · rintro ⟨blk, hm, hxin⟩
            have hm' := List.mem_of_mem_filter hm
            have hcond := List.of_mem_filter hm
            simp only [decide_eq_true_eq] at hcond
            have := (hiff x).mp ⟨blk, hm', hxin⟩
            rcases hxin with ⟨h1, _⟩
            exact ⟨by omega, this.2⟩
          · rintro ⟨hx1, hx2⟩
            rcases (hiff x).mpr ⟨by omega, hx2⟩ with ⟨blk, hm, hxin⟩
            refine ⟨blk, List.mem_filter.mpr ⟨hm, ?_⟩, hxin⟩
            simp only [decide_eq_true_eq]
            rcases no_cross W a e blk.1 blk.2 he (hal blk hm) (hsub blk hm).1
              (hsub blk hm).2 with hc | hc
            · exfalso
              rcases hxin with ⟨hx3, hx4⟩
              omega
            · exact hc
        · exact hdisj.sublist (List.filter_sublist l)
      have := ih (a + 2 ^ (W - largest_pfx W a e))
        (l.filter (fun blk => decide (a + 2 ^ (W - largest_pfx W a e) ≤ blk.1)))
        (by omega) hnext hcov'
      omega
    · -- the greedy block already reaches `e`
      rw [rb_go_nil W e fuel _ (by omega)]
      have : 0 < l.length := List.length_pos.mpr (by
        intro hnil
        rw [hnil] at hblk0
        simp at hblk0)
      simp only [List.length_nil]
      omega

/-- C2: the number of blocks emitted by the greedy largest-aligned-prefix
decomposition driving `add_std_range` / `add_ext_range` is minimal among all
covers of `[min a b, max a b]` by disjoint, address-aligned,
power-of-two-sized blocks expressible as a base/mask pair. -/
theorem bxcan_range_minimal (a b : Nat) (l : List (Nat × Nat)) :
    (a ≤ max_std_id → b ≤ max_std_id → IsCIDRCover l (min a b) (max a b) →
      (rangeBlocks 11 (min a b) (max a b)).length ≤ l.length) ∧
    (a ≤ max_ext_id → b ≤ max_ext_id → IsCIDRCover l (min a b) (max a b) →
      (rangeBlocks 29 (min a b) (max a b)).length ≤ l.length) := by
  have key : ∀ W MAX, MAX = 2 ^ W - 1 → a ≤ MAX → b ≤ MAX →
      IsCIDRCover l (min a b) (max a b) →
      (rangeBlocks W (min a b) (max a b)).length ≤ l.length := by
    intro W MAX hMAX ha hb hcov
    have hW1 := Nat.one_le_two_pow (n := W)
    have he : max a b < 2 ^ W := by
      rcases Nat.le_total a b with h | h <;> simp [Nat.max_def, Nat.min_def, h] <;> omega
    have hae : min a b ≤ max a b := by omega
    exact rb_go_min W (max a b) he _ _ l (Nat.le_refl _) hae hcov
  exact ⟨key 11 max_std_id (by decide), key 29 max_ext_id (by decide)⟩

/-- Witness for C2: the cover `[(0, 1)]` of the range `0..1`. -/
theorem bxcan_range_minimal_witness :
    (rangeBlocks 11 (min 0 1) (max 0 1)).length ≤ [((0 : Nat), (1 : Nat))].length ∧
    (rangeBlocks 29 (min 0 1) (max 0 1)).length ≤ [((0 : Nat), (1 : Nat))].length := by
  have hcov : IsCIDRCover [((0 : Nat), (1 : Nat))] (min 0 1) (max 0 1) := by
    refine ⟨?_, ?_, ?_⟩
    · intro blk hm
      simp at hm
      subst hm
      simp
    · intro x
      simp only [List.mem_singleton, blkIn]
      constructor
      · rintro ⟨blk, rfl, h⟩
        simp at h
        omega
      · intro h
        refine ⟨(0, 1), rfl, ?_⟩
        simp
        omega
    · simp
  exact ⟨(bxcan_range_minimal 0 1 [(0, 1)]).1 (by decide) (by decide) hcov,
    (bxcan_range_minimal 0 1 [(0, 1)]).2 (by decide) (by decide) hcov⟩

/-! ## bxCAN builder state (`canfilter_bxcan`) -/

/-- The bxCAN register image `hw_t`: identity byte, global bank-mode
registers and per-bank filter registers (`fr1`/`fr2` have `max_banks`
entries, kept as lists). -/
structure bx_hw where
  dev : Nat
  fs1r : Nat
  fm1r : Nat
  ffa1r : Nat
  fa1r : Nat
  fr1 : List Nat
  fr2 : List Nat
deriving Repr, DecidableEq

/-- Full builder state of `canfilter_bxcan`: the image plus the bank index
and the three accumulators with their counts.  The C++ accumulator arrays
are default-uninitialised but never read before being written; they are
modelled zero-initialised at the declared lengths. -/
structure BxState where
  hw : bx_hw
  bank : Nat
  ext_list : List Nat
  ext_list_count : Nat
  std_mask : List (Nat × Nat)
  std_mask_count : Nat
  std_list : List Nat
  std_list_count : Nat
deriving Repr, DecidableEq

/-- 32-bit complement `~x` for `x ≤ 2^32 - 1` (as in `&= ~(1 << bank)`). -/
def cnot32 (x : Nat) : Nat := 2 ^ 32 - 1 - x

/-- `emit_std_list`: pack 4 std list filters into one bank (16-bit list mode). -/
def emit_std_list (B : Nat) (st : BxState) (id1 id2 id3 id4 : Nat) :
    canfilter_error × BxState :=
  if st.bank ≥ B then (.full, st)
  else if id1 > max_std_id ∨ id2 > max_std_id ∨ id3 > max_std_id ∨ id4 > max_std_id then
    (.param, st)
  else
    (.success,
      { st with
        hw := { st.hw with
          fr1 := st.hw.fr1.set st.bank ((id2 <<< 21) ||| (id1 <<< 5)),
          fr2 := st.hw.fr2.set st.bank ((id4 <<< 21) ||| (id3 <<< 5)),
          fs1r := st.hw.fs1r &&& cnot32 (1 <<< st.bank),
          fm1r := st.hw.fm1r ||| (1 <<< st.bank),
          fa1r := st.hw.fa1r ||| (1 <<< st.bank) },
        bank := st.bank + 1 })

/-- `emit_std_mask`: pack 2 std mask filters into one bank (16-bit mask mode). -/
def emit_std_mask (B : Nat) (st : BxState) (id1 mask1 id2 mask2 : Nat) :
    canfilter_error × BxState :=
  if st.bank ≥ B then (.full, st)
  else if id1 > max_std_id ∨ mask1 > max_std_id ∨ id2 > max_std_id ∨ mask2 > max_std_id then
    (.param, st)
  else
    (.success,
      { st with
        hw := { st.hw with
          fr1 := st.hw.fr1.set st.bank ((mask1 <<< 21) ||| (id1 <<< 5)),
          fr2 := st.hw.fr2.set st.bank ((mask2 <<< 21) ||| (id2 <<< 5)),
          fs1r := st.hw.fs1r &&& cnot32 (1 <<< st.bank),
          fm1r := st.hw.fm1r &&& cnot32 (1 <<< st.bank),
          fa1r := st.hw.fa1r ||| (1 <<< st.bank) },
        bank := st.bank + 1 })

/-- `emit_ext_list`: pack 2 ext list filters into one bank (32-bit list mode). -/
def emit_ext_list (B : Nat) (st : BxState) (id1 id2 : Nat) :
    canfilter_error × BxState :=
  if st.bank ≥ B then (.full, st)
  else if id1 > max_ext_id ∨ id2 > max_ext_id then (.param, st)
  else
    (.success,
      { st with
        hw := { st.hw with
          fr1 := st.hw.fr1.set st.bank ((id1 <<< 3) ||| (1 <<< 2)),
          fr2 := st.hw.fr2.set st.bank ((id2 <<< 3) ||| (1 <<< 2)),
          fs1r := st.hw.fs1r ||| (1 <<< st.bank),
          fm1r := st.hw.fm1r ||| (1 <<< st.bank),
          fa1r := st.hw.fa1r ||| (1 <<< st.bank) },
        bank := st.bank + 1 })

/-- `emit_ext_mask`: pack 1 ext mask filter into one bank (32-bit mask mode). -/
def emit_ext_mask (B : Nat) (st : BxState) (id1 mask1 : Nat) :
    canfilter_error × BxState :=
  if st.bank ≥ B then (.full, st)
  else if id1 > max_ext_id ∨ mask1 > max_ext_id then (.param, st)
  else
    (.success,
      { st with
        hw := { st.hw with
          fr1 := st.hw.fr1.set st.bank ((id1 <<< 3) ||| (1 <<< 2)),
          fr2 := st.hw.fr2.set st.bank (mask1 <<< 3),
          fs1r := st.hw.fs1r ||| (1 <<< st.bank),
          fm1r := st.hw.fm1r &&& cnot32 (1 <<< st.bank),
          fa1r := st.hw.fa1r ||| (1 <<< st.bank) },
        bank := st.bank + 1 })

/-- `add_std_list`: accumulate a std ID; replicate on first, emit on fourth. -/
def add_std_list (B : Nat) (st : BxState) (id : Nat) : canfilter_error × BxState :=
  if st.std_list_count > 3 then (.param, st)
  else
    let st1 := { st with std_list := st.std_list.set st.std_list_count id,
                         std_list_count := st.std_list_count + 1 }
    if st1.std_list_count = 1 then
      (.success, { st1 with std_list := ((st1.std_list.set 1 id).set 2 id).set 3 id })
    else if st1.std_list_count = 4 then
      let r := emit_std_list B st1 (st1.std_list.getD 0 0) (st1.std_list.getD 1 0)
        (st1.std_list.getD 2 0) (st1.std_list.getD 3 0)
      (r.1, { r.2 with std_list_count := 0 })
    else (.success, st1)

/-- `add_std_mask`: accumulate a std (id, mask) pair; replicate on first,
emit on second. -/
def add_std_mask (B : Nat) (st : BxState) (id mask : Nat) : canfilter_error × BxState :=
  if st.std_mask_count > 1 then (.param, st)
  else
    let st1 := { st with std_mask := st.std_mask.set st.std_mask_count (id, mask),
                         std_mask_count := st.std_mask_count + 1 }
    if st1.std_mask_count = 1 then
      (.success, { st1 with std_mask := st1.std_mask.set 1 (id, mask) })
    else if st1.std_mask_count = 2 then
      let r := emit_std_mask B st1 (st1.std_mask.getD 0 (0, 0)).1
        (st1.std_mask.getD 0 (0, 0)).2 (st1.std_mask.getD 1 (0, 0)).1
        (st1.std_mask.getD 1 (0, 0)).2
      (r.1, { r.2 with std_mask_count := 0 })
    else (.success, st1)

/-- `add_ext_list`: accumulate an ext ID; replicate on first, emit on second. -/
def add_ext_list (B : Nat) (st : BxState) (id : Nat) : canfilter_error × BxState :=
  if st.ext_list_count > 1 then (.param, st)
  else
    let st1 := { st with ext_list := st.ext_list.set st.ext_list_count id,
                         ext_list_count := st.ext_list_count + 1 }
    if st1.ext_list_count = 1 then
      (.success, { st1 with ext_list := st1.ext_list.set 1 id })
    else if st1.ext_list_count = 2 then
      let r := emit_ext_list B st1 (st1.ext_list.getD 0 0) (st1.ext_list.getD 1 0)
      (r.1, { r.2 with ext_list_count := 0 })
    else (.success, st1)

/-- `add_ext_mask`: ext masks are not accumulated, each is emitted at once. -/
def add_ext_mask (B : Nat) (st : BxState) (id mask : Nat) : canfilter_error × BxState :=
  emit_ext_mask B st id mask

/-- The CIDR decomposition loop of `add_std_range` (body as in the source;
`fuel` bounds the iterations, each of which advances `begin`). -/
def std_range_go (B : Nat) : Nat → BxState → Nat → Nat → canfilter_error × BxState
  | 0, st, _, _ => (.success, st)
  | fuel + 1, st, b, e =>
    if b ≤ e then
      let p := largest_pfx 11 b e
      let mask := blockMask 11 p
      let r := if mask = max_std_id then add_std_list B st b else add_std_mask B st b mask
      if r.1 = .success then std_range_go B fuel r.2 (b + 2 ^ (11 - p)) e
      else r
    else (.success, st)

/-- `add_std_range`: param check, endpoint swap, then the decomposition loop. -/
def add_std_range (B : Nat) (st : BxState) (b e : Nat) : canfilter_error × BxState :=
  if b > max_std_id ∨ e > max_std_id then (.param, st)
  else std_range_go B (max b e + 1 - min b e) st (min b e) (max b e)

/-- The CIDR decomposition loop of `add_ext_range`. -/
def ext_range_go (B : Nat) : Nat → BxState → Nat → Nat → canfilter_error × BxState
  | 0, st, _, _ => (.success, st)
  | fuel + 1, st, b, e =>
    if b ≤ e then
      let p := largest_pfx 29 b e
      let mask := blockMask 29 p
      let r := if mask = max_ext_id then add_ext_list B st b else add_ext_mask B st b mask
      if r.1 = .success then ext_range_go B fuel r.2 (b + 2 ^ (29 - p)) e
      else r
    else (.success, st)

/-- `add_ext_range`: param check, endpoint swap, then the decomposition loop. -/
def add_ext_range (B : Nat) (st : BxState) (b e : Nat) : canfilter_error × BxState :=
  if b > max_ext_id ∨ e > max_ext_id then (.param, st)
  else ext_range_go B (max b e + 1 - min b e) st (min b e) (max b e)

/-- `add_std_id(id)` is `add_std_range(id, id)`. -/
def add_std_id (B : Nat) (st : BxState) (id : Nat) : canfilter_error × BxState :=
  add_std_range B st id id

/-- `add_ext_id(id)` is `add_ext_range(id, id)`. -/
def add_ext_id (B : Nat) (st : BxState) (id : Nat) : canfilter_error × BxState :=
  add_ext_range B st id id

/-- `begin()`: zero the image, stamp the identity, reset counts. -/
def bx_begin (B dev : Nat) : BxState :=
  { hw := { dev := dev, fs1r := 0, fm1r := 0, ffa1r := 0, fa1r := 0,
            fr1 := List.replicate B 0, fr2 := List.replicate B 0 },
    bank := 0,
    ext_list := List.replicate 2 0, ext_list_count := 0,
    std_mask := List.replicate 2 (0, 0), std_mask_count := 0,
    std_list := List.replicate 4 0, std_list_count := 0 }

/-- `end()` step 1: flush a pending std list. -/
def bx_end1 (B : Nat) (st : BxState) : canfilter_error × BxState :=
  if st.std_list_count ≠ 0 then
    emit_std_list B st (st.std_list.getD 0 0) (st.std_list.getD 1 0)
      (st.std_list.getD 2 0) (st.std_list.getD 3 0)
  else (.success, st)

/-- `end()` step 2: flush a pending std mask pair if still successful. -/
def bx_end2 (B : Nat) (r : canfilter_error × BxState) : canfilter_error × BxState :=
  if r.2.std_mask_count ≠ 0 ∧ r.1 = .success then
    emit_std_mask B r.2 (r.2.std_mask.getD 0 (0, 0)).1 (r.2.std_mask.getD 0 (0, 0)).2
      (r.2.std_mask.getD 1 (0, 0)).1 (r.2.std_mask.getD 1 (0, 0)).2
  else r

/-- `end()` step 3: flush a pending ext list if still successful. -/
def bx_end3 (B : Nat) (r : canfilter_error × BxState) : canfilter_error × BxState :=
  if r.2.ext_list_count ≠ 0 ∧ r.1 = .success then
    emit_ext_list B r.2 (r.2.ext_list.getD 0 0) (r.2.ext_list.getD 1 0)
  else r

/-- `end()`: flush the three accumulators in order, short-circuiting on a
non-success result.  The counts are not modified. -/
def bx_end (B : Nat) (st : BxState) : canfilter_error × BxState :=
  bx_end3 B (bx_end2 B (bx_end1 B st))

/-- The builder calls available after `begin()`. -/
inductive BxCall where
  | stdId (id : Nat)
  | extId (id : Nat)
  | stdRange (a b : Nat)
  | extRange (a b : Nat)
  | endCall
deriving Repr, DecidableEq

def bx_apply (B : Nat) (st : BxState) : BxCall → BxState
  | .stdId id => (add_std_id B st id).2
  | .extId id => (add_ext_id B st id).2
  | .stdRange a b => (add_std_range B st a b).2
  | .extRange a b => (add_ext_range B st a b).2
  | .endCall => (bx_end B st).2

/-- The state after `begin()` followed by a sequence of builder calls. -/
def bx_run (B dev : Nat) (calls : List BxCall) : BxState :=
  calls.foldl (bx_apply B) (bx_begin B dev)

example :
    (bx_run 14 1 [.stdId 0x100, .endCall]).bank = 1 ∧
    (bx_run 14 1 [.stdId 0x100, .endCall]).hw.fa1r = 1 ∧
    (bx_run 14 1 [.stdId 0x100, .endCall]).hw.fs1r = 0 ∧
    (bx_run 14 1 [.stdId 0x100, .endCall]).hw.fm1r = 1 ∧
    (bx_run 14 1 [.stdId 0x100, .endCall]).hw.fr1.getD 0 0 = 0x20002000 ∧
    (bx_run 14 1 [.stdId 0x100, .endCall]).hw.fr2.getD 0 0 = 0x20002000 := by
  decide

example :
    (bx_run 14 1 [.stdRange 0x000 0x0FF, .endCall]).hw.fr1.getD 0 0 = 0xE0000000 ∧
    (bx_run 14 1 [.stdRange 0x000 0x0FF, .endCall]).hw.fs1r = 0 ∧
    (bx_run 14 1 [.stdRange 0x000 0x0FF, .endCall]).hw.fm1r = 0 ∧
    (bx_run 14 1 [.stdRange 0x000 0x0FF, .endCall]).hw.fa1r = 1 := by
  decide

/-! ## FDCAN builder state (`canfilter_fdcan`) -/

/-- Filter-type and element-configuration constants of the FDCAN back-end. -/
def SFT_RANGE : Nat := 0x0
def SFT_DUAL : Nat := 0x1
def SFEC_RX_FIFO0 : Nat := 0x1
def EFT_RANGE : Nat := 0x0
def EFT_DUAL : Nat := 0x1
def EFEC_RX_FIFO0 : Nat := 0x1

/-- The FDCAN image `hw_t`: identity, used counts and the two filter tables
(`std_filter` has `max_std_filter` words, `ext_filter` has `max_ext_filter`
two-word entries). -/
structure fd_hw where
  dev : Nat
  std_filter_nbr : Nat
  ext_filter_nbr : Nat
  std_filter : List Nat
  ext_filter : List (Nat × Nat)
deriving Repr, DecidableEq

/-- Full builder state of `canfilter_fdcan`: image plus the two dual-ID
accumulators. -/
structure FdState where
  hw : fd_hw
  ext_id : List Nat
  ext_id_count : Nat
  std_id : List Nat
  std_id_count : Nat
deriving Repr, DecidableEq

/-- `emit_std_id`: one standard dual-ID filter element. -/
def fd_emit_std_id (S : Nat) (st : FdState) (id1 id2 : Nat) :
    canfilter_error × FdState :=
  if st.hw.std_filter_nbr ≥ S then (.full, st)
  else if id1 > max_std_id ∨ id2 > max_std_id then (.param, st)
  else
    (.success,
      { st with hw := { st.hw with
          std_filter := st.hw.std_filter.set st.hw.std_filter_nbr
            ((SFT_DUAL <<< 30) ||| (SFEC_RX_FIFO0 <<< 27) ||| (id1 <<< 16) ||| id2),
          std_filter_nbr := st.hw.std_filter_nbr + 1 } })

/-- `emit_std_range`: one standard range filter element. -/
def fd_emit_std_range (S : Nat) (st : FdState) (id1 id2 : Nat) :
    canfilter_error × FdState :=
  if st.hw.std_filter_nbr ≥ S then (.full, st)
  else if id1 > max_std_id ∨ id2 > max_std_id ∨ id1 > id2 then (.param, st)
  else
    (.success,
      { st with hw := { st.hw with
          std_filter := st.hw.std_filter.set st.hw.std_filter_nbr
            ((SFT_RANGE <<< 30) ||| (SFEC_RX_FIFO0 <<< 27) ||| (id1 <<< 16) ||| id2),
          std_filter_nbr := st.hw.std_filter_nbr + 1 } })

/-- `emit_ext_id`: one extended dual-ID filter element (two words). -/
def fd_emit_ext_id (E : Nat) (st : FdState) (id1 id2 : Nat) :
    canfilter_error × FdState :=
  if st.hw.ext_filter_nbr ≥ E then (.full, st)
  else if id1 > max_ext_id ∨ id2 > max_ext_id then (.param, st)
  else
    (.success,
      { st with hw := { st.hw with
          ext_filter := st.hw.ext_filter.set st.hw.ext_filter_nbr
            ((EFEC_RX_FIFO0 <<< 29) ||| id1, (EFT_DUAL <<< 30) ||| id2),
          ext_filter_nbr := st.hw.ext_filter_nbr + 1 } })

/-- `emit_ext_range`: one extended range filter element (two words). -/
def fd_emit_ext_range (E : Nat) (st : FdState) (id1 id2 : Nat) :
    canfilter_error × FdState :=
  if st.hw.ext_filter_nbr ≥ E then (.full, st)
  else if id1 > max_ext_id ∨ id2 > max_ext_id ∨ id1 > id2 then (.param, st)
  else
    (.success,
      { st with hw := { st.hw with
          ext_filter := st.hw.ext_filter.set st.hw.ext_filter_nbr
            ((EFEC_RX_FIFO0 <<< 29) ||| id1, (EFT_RANGE <<< 30) ||| id2),
          ext_filter_nbr := st.hw.ext_filter_nbr + 1 } })

/-- FDCAN `begin()`. -/
def fd_begin (S E dev : Nat) : FdState :=
  { hw := { dev := dev, std_filter_nbr := 0, ext_filter_nbr := 0,
            std_filter := List.replicate S 0,
            ext_filter := List.replicate E (0, 0) },
    ext_id := List.replicate 2 0, ext_id_count := 0,
    std_id := List.replicate 2 0, std_id_count := 0 }

/-- FDCAN `end()` step 1: flush a pending std singleton. -/
def fd_end1 (S : Nat) (st : FdState) : canfilter_error × FdState :=
  if st.std_id_count ≠ 0 then
    fd_emit_std_id S st (st.std_id.getD 0 0) (st.std_id.getD 1 0)
  else (.success, st)

/-- FDCAN `end()` step 2: flush a pending ext singleton if still successful. -/
def fd_end2 (E : Nat) (r : canfilter_error × FdState) : canfilter_error × FdState :=
  if r.2.ext_id_count ≠ 0 ∧ r.1 = .success then
    fd_emit_ext_id E r.2 (r.2.ext_id.getD 0 0) (r.2.ext_id.getD 1 0)
  else r

/-- FDCAN `end()`: flush singleton accumulators; counts are not modified. -/
def fd_end (S E : Nat) (st : FdState) : canfilter_error × FdState :=
  fd_end2 E (fd_end1 S st)

/-- FDCAN `add_std_id`: pair up standard IDs, replicating a singleton. -/
def fd_add_std_id (S : Nat) (st : FdState) (id : Nat) : canfilter_error × FdState :=
  if id > max_std_id ∨ st.std_id_count > 1 then (.param, st)
  else
    let st1 := { st with std_id := st.std_id.set st.std_id_count id,
                         std_id_count := st.std_id_count + 1 }
    if st1.std_id_count = 1 then
      (.success, { st1 with std_id := st1.std_id.set 1 id })
    else
      let r := fd_emit_std_id S st1 (st1.std_id.getD 0 0) (st1.std_id.getD 1 0)
      (r.1, { r.2 with std_id_count := 0 })

/-- FDCAN `add_ext_id`: pair up extended IDs, replicating a singleton. -/
def fd_add_ext_id (E : Nat) (st : FdState) (id : Nat) : canfilter_error × FdState :=
  if id > max_ext_id ∨ st.ext_id_count > 1 then (.param, st)
  else
    let st1 := { st with ext_id := st.ext_id.set st.ext_id_count id,
                         ext_id_count := st.ext_id_count + 1 }
    if st1.ext_id_count = 1 then
      (.success, { st1 with ext_id := st1.ext_id.set 1 id })
    else
      let r := fd_emit_ext_id E st1 (st1.ext_id.getD 0 0) (st1.ext_id.getD 1 0)
      (r.1, { r.2 with ext_id_count := 0 })

/-- FDCAN `add_std_range`: normalize endpoint order, emit directly. -/
def fd_add_std_range (S : Nat) (st : FdState) (b e : Nat) : canfilter_error × FdState :=
  if b > max_std_id ∨ e > max_std_id then (.param, st)
  else if b ≤ e then fd_emit_std_range S st b e
  else fd_emit_std_range S st e b

/-- FDCAN `add_ext_range`: normalize endpoint order, emit directly. -/
def fd_add_ext_range (E : Nat) (st : FdState) (b e : Nat) : canfilter_error × FdState :=
  if b > max_ext_id ∨ e > max_ext_id then (.param, st)
  else if b ≤ e then fd_emit_ext_range E st b e
  else fd_emit_ext_range E st e b

inductive FdCall where
  | stdId (id : Nat)
  | extId (id : Nat)
  | stdRange (a b : Nat)
  | extRange (a b : Nat)
  | endCall
deriving Repr, DecidableEq

def fd_apply (S E : Nat) (st : FdState) : FdCall → FdState
  | .stdId id => (fd_add_std_id S st id).2
  | .extId id => (fd_add_ext_id E st id).2
  | .stdRange a b => (fd_add_std_range S st a b).2
  | .extRange a b => (fd_add_ext_range E st a b).2
  | .endCall => (fd_end S E st).2

/-- The FDCAN state after `begin()` followed by a sequence of builder calls. -/
def fd_run (S E dev : Nat) (calls : List FdCall) : FdState :=
  calls.foldl (fd_apply S E) (fd_begin S E dev)

example :
    (fd_run 128 64 4 [.extRange 0x1FFF0000 0x1FFFFFFF]).hw.ext_filter_nbr = 1 ∧
    (fd_run 128 64 4 [.extRange 0x1FFF0000 0x1FFFFFFF]).hw.ext_filter.getD 0 (0, 0) =
      (0x3FFF0000, 0x1FFFFFFF) := by
  decide

/-! ## Capacity exhaustion (claim C3) -/

theorem getD_replicate {α : Type} : ∀ (n i : Nat) (a : α),
    (List.replicate n a).getD i a = a := by
  intro n
  induction n with
  | zero => intro i a; cases i <;> rfl
  | succ n ih =>
    intro i a
    cases i with
    | zero => rfl
    | succ i => simp [List.replicate, ih i a]

/-- C3: with the bxCAN bank counter at capacity `B`, each of the four bank
emissions returns `Full` and leaves the state (hence the register image)
unchanged, so slots at or beyond the count stay zero; likewise for the
FDCAN element emissions at `std_filter_nbr = S` / `ext_filter_nbr = E`. -/
theorem capacity_exhausted_full (B : Nat) (st : BxState) (i1 i2 i3 i4 m1 m2 : Nat)
    (hbank : st.bank = B)
    (hz : ∀ i, B ≤ i → st.hw.fr1.getD i 0 = 0 ∧ st.hw.fr2.getD i 0 = 0)
    (S E : Nat) (stf : FdState) (j1 j2 : Nat)
    (hstd : stf.hw.std_filter_nbr = S) (hext : stf.hw.ext_filter_nbr = E)
    (hzs : ∀ i, S ≤ i → stf.hw.std_filter.getD i 0 = 0)
    (hze : ∀ i, E ≤ i → stf.hw.ext_filter.getD i (0, 0) = (0, 0)) :
    (emit_std_list B st i1 i2 i3 i4 = (.full, st) ∧
     emit_std_mask B st i1 m1 i2 m2 = (.full, st) ∧
     emit_ext_list B st i1 i2 = (.full, st) ∧
     emit_ext_mask B st i1 m1 = (.full, st) ∧
     (∀ i, B ≤ i → (emit_std_list B st i1 i2 i3 i4).2.hw.fr1.getD i 0 = 0 ∧
       (emit_std_list B st i1 i2 i3 i4).2.hw.fr2.getD i 0 = 0)) ∧
    (fd_emit_std_id S stf j1 j2 = (.full, stf) ∧
     fd_emit_std_range S stf j1 j2 = (.full, stf) ∧
     fd_emit_ext_id E stf j1 j2 = (.full, stf) ∧
     fd_emit_ext_range E stf j1 j2 = (.full, stf) ∧
     (∀ i, S ≤ i → (fd_emit_std_id S stf j1 j2).2.hw.std_filter.getD i 0 = 0) ∧
     (∀ i, E ≤ i → (fd_emit_ext_id E stf j1 j2).2.hw.ext_filter.getD i (0, 0) = (0, 0))) := by
  have h1 : emit_std_list B st i1 i2 i3 i4 = (.full, st) := by
    unfold emit_std_list
    rw [if_pos (by omega)]
  have h2 : emit_std_mask B st i1 m1 i2 m2 = (.full, st) := by
    unfold emit_std_mask
    rw [if_pos (by omega)]
  have h3 : emit_ext_list B st i1 i2 = (.full, st) := by
    unfold emit_ext_list
    rw [if_pos (by omega)]
  have h4 : emit_ext_mask B st i1 m1 = (.full, st) := by
    unfold emit_ext_mask
    rw [if_pos (by omega)]
  have f1 : fd_emit_std_id S stf j1 j2 = (.full, stf) := by
    unfold fd_emit_std_id
    rw [if_pos (by omega)]
  have f2 : fd_emit_std_range S stf j1 j2 = (.full, stf) := by
    unfold fd_emit_std_range
    rw [if_pos (by omega)]
  have f3 : fd_emit_ext_id E stf j1 j2 = (.full, stf) := by
    unfold fd_emit_ext_id
    rw [if_pos (by omega)]
  have f4 : fd_emit_ext_range E stf j1 j2 = (.full, stf) := by
    unfold fd_emit_ext_range
    rw [if_pos (by omega)]
  refine ⟨⟨h1, h2, h3, h4, ?_⟩, f1, f2, f3, f4, ?_, ?_⟩
  · rw [h1]; exact hz
  · rw [f1]; exact hzs
  · rw [f3]; exact hze

/-- A bxCAN-14 state with all 14 banks used, and an FDCAN-28-8 state with
all std and ext elements used (hardware image still blank past the count). -/
def bxFullSt : BxState := { bx_begin 14 1 with bank := 14 }

def fdFullSt : FdState :=
  { fd_begin 28 8 3 with
    hw := { (fd_begin 28 8 3).hw with std_filter_nbr := 28, ext_filter_nbr := 8 } }

theorem capacity_exhausted_full_witness :
    emit_std_list 14 bxFullSt 1 2 3 4 = (.full, bxFullSt) ∧
    emit_ext_mask 14 bxFullSt 1 2 = (.full, bxFullSt) ∧
    ((emit_std_list 14 bxFullSt 1 2 3 4).2.hw.fr1.getD 14 0 = 0 ∧
      (emit_std_list 14 bxFullSt 1 2 3 4).2.hw.fr2.getD 14 0 = 0) ∧
    fd_emit_std_id 28 fdFullSt 0x100 0x200 = (.full, fdFullSt) ∧
    fd_emit_ext_id 8 fdFullSt 1 2 = (.full, fdFullSt) ∧
    (fd_emit_std_id 28 fdFullSt 0x100 0x200).2.hw.std_filter.getD 28 0 = 0 := by
  have h := capacity_exhausted_full 14 bxFullSt 1 2 3 4 2 2 rfl
    (by
      intro i _
      constructor <;> exact getD_replicate 14 i 0)
    28 8 fdFullSt 0x100 0x200 rfl rfl
    (by
      intro i _
      exact getD_replicate 28 i 0)
    (by
      intro i _
      exact getD_replicate 8 i (0, 0))
  exact ⟨h.1.1, h.1.2.2.2.1, h.1.2.2.2.2 14 (Nat.le_refl _), h.2.1, h.2.2.2.1,
    h.2.2.2.2.2.1 28 (Nat.le_refl _)⟩

/-! ## `end()` and the accumulator counts (claim C4) -/

/-- C4 as written is false: after `begin(); add_std_id(5)`, the call
`end()` succeeds (the pending std list is flushed into bank 0) but
`std_list_count` is still 1, not 0 — `end()` never resets the counts. -/
theorem end_empties_accumulators_counterexample :
    (add_std_id 14 (bx_begin 14 1) 5).1 = .success ∧
    (bx_end 14 (add_std_id 14 (bx_begin 14 1) 5).2).1 = .success ∧
    (bx_end 14 (add_std_id 14 (bx_begin 14 1) 5).2).2.std_list_count = 1 := by
  decide

theorem emit_std_list_counts (B : Nat) (st : BxState) (i1 i2 i3 i4 : Nat) :
    (emit_std_list B st i1 i2 i3 i4).2.std_list_count = st.std_list_count ∧
    (emit_std_list B st i1 i2 i3 i4).2.std_mask_count = st.std_mask_count ∧
    (emit_std_list B st i1 i2 i3 i4).2.ext_list_count = st.ext_list_count := by
  unfold emit_std_list
  split
  · exact ⟨rfl, rfl, rfl⟩
  split
  · exact ⟨rfl, rfl, rfl⟩
  · exact ⟨rfl, rfl, rfl⟩

theorem emit_std_mask_counts (B : Nat) (st : BxState) (i1 m1 i2 m2 : Nat) :
    (emit_std_mask B st i1 m1 i2 m2).2.std_list_count = st.std_list_count ∧
    (emit_std_mask B st i1 m1 i2 m2).2.std_mask_count = st.std_mask_count ∧
    (emit_std_mask B st i1 m1 i2 m2).2.ext_list_count = st.ext_list_count := by
  unfold emit_std_mask
  split
  · exact ⟨rfl, rfl, rfl⟩
  split
  · exact ⟨rfl, rfl, rfl⟩
  · exact ⟨rfl, rfl, rfl⟩

theorem emit_ext_list_counts (B : Nat) (st : BxState) (i1 i2 : Nat) :
    (emit_ext_list B st i1 i2).2.std_list_count = st.std_list_count ∧
    (emit_ext_list B st i1 i2).2.std_mask_count = st.std_mask_count ∧
    (emit_ext_list B st i1 i2).2.ext_list_count = st.ext_list_count := by
  unfold emit_ext_list
  split
  · exact ⟨rfl, rfl, rfl⟩
  split
  · exact ⟨rfl, rfl, rfl⟩
  · exact ⟨rfl, rfl, rfl⟩

theorem fd_emit_std_id_counts (S : Nat) (st : FdState) (i1 i2 : Nat) :
    (fd_emit_std_id S st i1 i2).2.std_id_count = st.std_id_count ∧
    (fd_emit_std_id S st i1 i2).2.ext_id_count = st.ext_id_count := by
  unfold fd_emit_std_id
  split
  · exact ⟨rfl, rfl⟩
  split
  · exact ⟨rfl, rfl⟩
  · exact ⟨rfl, rfl⟩

theorem fd_emit_ext_id_counts (E : Nat) (st : FdState) (i1 i2 : Nat) :
    (fd_emit_ext_id E st i1 i2).2.std_id_count = st.std_id_count ∧
    (fd_emit_ext_id E st i1 i2).2.ext_id_count = st.ext_id_count := by
  unfold fd_emit_ext_id
  split
  · exact ⟨rfl, rfl⟩
  split
  · exact ⟨rfl, rfl⟩
  · exact ⟨rfl, rfl⟩

/-- C4 (amended): `end()` flushes pending accumulators into the image but
leaves every accumulator count exactly as it was — in both back-ends the
counts are reset only by `begin()`, never by `end()`, successful or not. -/
theorem end_preserves_accumulator_counts (B : Nat) (st : BxState)
    (S E : Nat) (stf : FdState) :
    ((bx_end B st).2.std_list_count = st.std_list_count ∧
     (bx_end B st).2.std_mask_count = st.std_mask_count ∧
     (bx_end B st).2.ext_list_count = st.ext_list_count) ∧
    ((fd_end S E stf).2.std_id_count = stf.std_id_count ∧
     (fd_end S E stf).2.ext_id_count = stf.ext_id_count) := by
  constructor
  · have s1 : (bx_end1 B st).2.std_list_count = st.std_list_count ∧
        (bx_end1 B st).2.std_mask_count = st.std_mask_count ∧
        (bx_end1 B st).2.ext_list_count = st.ext_list_count := by
      unfold bx_end1
      split
      · exact emit_std_list_counts B st _ _ _ _
      · exact ⟨rfl, rfl, rfl⟩
    have s2 : ∀ r : canfilter_error × BxState,
        (bx_end2 B r).2.std_list_count = r.2.std_list_count ∧
        (bx_end2 B r).2.std_mask_count = r.2.std_mask_count ∧
        (bx_end2 B r).2.ext_list_count = r.2.ext_list_count := by
      intro r
      unfold bx_end2
      split
      · exact emit_std_mask_counts B r.2 _ _ _ _
      · exact ⟨rfl, rfl, rfl⟩
    have s3 : ∀ r : canfilter_error × BxState,
        (bx_end3 B r).2.std_list_count = r.2.std_list_count ∧
        (bx_end3 B r).2.std_mask_count = r.2.std_mask_count ∧
        (bx_end3 B r).2.ext_list_count = r.2.ext_list_count := by
      intro r
      unfold bx_end3
      split
      · exact emit_ext_list_counts B r.2 _ _
      · exact ⟨rfl, rfl, rfl⟩
    unfold bx_end
    rcases s1 with ⟨a1, a2, a3⟩
    rcases s2 (bx_end1 B st) with ⟨b1, b2, b3⟩
    rcases s3 (bx_end2 B (bx_end1 B st)) with ⟨c1, c2, c3⟩
    exact ⟨by rw [c1, b1, a1], by rw [c2, b2, a2], by rw [c3, b3, a3]⟩
  · have s1 : (fd_end1 S stf).2.std_id_count = stf.std_id_count ∧
        (fd_end1 S stf).2.ext_id_count = stf.ext_id_count := by
      unfold fd_end1
      split
      · exact fd_emit_std_id_counts S stf _ _
      · exact ⟨rfl, rfl⟩
    have s2 : ∀ r : canfilter_error × FdState,
        (fd_end2 E r).2.std_id_count = r.2.std_id_count ∧
        (fd_end2 E r).2.ext_id_count = r.2.ext_id_count := by
      intro r
      unfold fd_end2
      split
      · exact fd_emit_ext_id_counts E r.2 _ _
      · exact ⟨rfl, rfl⟩
    unfold fd_end
    rcases s1 with ⟨a1, a2⟩
    rcases s2 (fd_end1 S stf) with ⟨b1, b2⟩
    exact ⟨by rw [b1, a1], by rw [b2, a2]⟩

/-! ## FDCAN dual-ID emission scenario (claim C5) -/

/-- C5 as written is false in its numeral: the word
`(1<<30)|(1<<27)|(0x100<<16)|0x200` equals `0x49000200`, not `0x48100200`,
so `std_filter[0]` differs from the claimed constant. -/
theorem fdcan_dual_id_word_counterexample :
    (fd_run 28 8 3 [.stdId 0x100, .stdId 0x200]).hw.std_filter_nbr = 1 ∧
    (fd_run 28 8 3 [.stdId 0x100, .stdId 0x200]).hw.std_filter.getD 0 0 ≠ 0x48100200 := by
  decide

/-- C5 (amended): after `begin()`, `add_std_id(0x100)`, `add_std_id(0x200)`
on FDCAN-28-8, both calls succeed, exactly one standard dual-ID element has
been emitted, and its word is `(1<<30)|(1<<27)|(0x100<<16)|0x200`, which
evaluates to `0x49000200`. -/
theorem fdcan_dual_id_emission :
    (fd_add_std_id 28 (fd_begin 28 8 3) 0x100).1 = .success ∧
    (fd_add_std_id 28 (fd_add_std_id 28 (fd_begin 28 8 3) 0x100).2 0x200).1 = .success ∧
    (fd_run 28 8 3 [.stdId 0x100, .stdId 0x200]).hw.std_filter_nbr = 1 ∧
    (fd_run 28 8 3 [.stdId 0x100, .stdId 0x200]).hw.std_filter.getD 0 0 =
      ((1 <<< 30) ||| (1 <<< 27) ||| (0x100 <<< 16) ||| 0x200) ∧
    ((1 <<< 30) ||| (1 <<< 27) ||| (0x100 <<< 16) ||| (0x200 : Nat)) = 0x49000200 := by
  decide

/-! ## Reachable-state invariants of the bxCAN builder (claims C7, C10) -/

theorem getD_set_ne {α : Type} (l : List α) (i j : Nat) (v d : α) (h : i ≠ j) :
    (l.set i v).getD j d = l.getD j d := by
  simp [List.getD_eq_getElem?_getD, List.getElem?_set_ne h]

theorem testBit_lor_one_shift {x bank i : Nat} (hib : bank < i) :
    (x ||| (1 <<< bank)).testBit i = x.testBit i := by
  rw [Nat.testBit_or, Nat.testBit_shiftLeft]
  have h2 : 2 ^ 1 ≤ 2 ^ (i - bank) := Nat.pow_le_pow_right (by omega) (by omega)
  have h1 : Nat.testBit 1 (i - bank) = false := Nat.testBit_lt_two_pow (by omega)
  simp [h1]

theorem getD_prop {α : Type} {P : α → Prop} {l : List α} {d : α}
    (h : ∀ x ∈ l, P x) (hd : P d) (i : Nat) : P (l.getD i d) := by
  by_cases hi : i < l.length
  · rw [List.getD_eq_getElem?_getD, List.getElem?_eq_getElem hi]
    exact h _ (List.getElem_mem hi)
  · rw [List.getD_eq_getElem?_getD, List.getElem?_eq_none (by omega)]
    exact hd

theorem mem_set_prop {α : Type} {P : α → Prop} {l : List α} {v : α}
    (h : ∀ x ∈ l, P x) (hv : P v) (i : Nat) : ∀ x ∈ l.set i v, P x := by
  intro x hx
  rcases List.mem_or_eq_of_mem_set hx with hmem | rfl
  · exact h x hmem
  · exact hv

/-- Image part of the reachable-state invariant: the bank counter never
exceeds the capacity, and every bank at or beyond it is still blank (zero
`fr1`/`fr2` words, clear `fa1r` bit). -/
structure BxImg (B : Nat) (st : BxState) : Prop where
  bank_le : st.bank ≤ B
  fr1_len : st.hw.fr1.length = B
  fr2_len : st.hw.fr2.length = B
  high_zero : ∀ i, st.bank ≤ i → st.hw.fr1.getD i 0 = 0 ∧ st.hw.fr2.getD i 0 = 0 ∧
    st.hw.fa1r.testBit i = false

/-- Accumulator part of the reachable-state invariant: counts within their
bounds and buffered entries within their identifier spaces. -/
structure BxAcc (st : BxState) : Prop where
  sl_count : st.std_list_count ≤ 3
  sm_count : st.std_mask_count ≤ 1
  el_count : st.ext_list_count ≤ 1
  sl_len : st.std_list.length = 4
  sm_len : st.std_mask.length = 2
  el_len : st.ext_list.length = 2
  sl_bound : ∀ x ∈ st.std_list, x ≤ max_std_id
  sm_bound : ∀ q ∈ st.std_mask, q.1 ≤ max_std_id ∧ q.2 ≤ max_std_id
  el_bound : ∀ x ∈ st.ext_list, x ≤ max_ext_id

theorem bximg_update (B : Nat) (st : BxState) (hlt : st.bank < B) (h : BxImg B st)
    (v1 v2 fs fm : Nat) :
    BxImg B { st with
      hw := { st.hw with
        fr1 := st.hw.fr1.set st.bank v1,
        fr2 := st.hw.fr2.set st.bank v2,
        fs1r := fs, fm1r := fm,
        fa1r := st.hw.fa1r ||| (1 <<< st.bank) },
      bank := st.bank + 1 } := by
  constructor
  · show st.bank + 1 ≤ B
    omega
  · show (st.hw.fr1.set st.bank v1).length = B
    simp [h.fr1_len]
  · show (st.hw.fr2.set st.bank v2).length = B
    simp [h.fr2_len]
  · intro i hi
    have hi' : st.bank + 1 ≤ i := hi
    have hne : st.bank ≠ i := by omega
    have h0 := h.high_zero i (by omega)
    refine ⟨?_, ?_, ?_⟩
    · show (st.hw.fr1.set st.bank v1).getD i 0 = 0
      rw [getD_set_ne _ _ _ _ _ hne]
      exact h0.1
    · show (st.hw.fr2.set st.bank v2).getD i 0 = 0
      rw [getD_set_ne _ _ _ _ _ hne]
      exact h0.2.1
    · show (st.hw.fa1r ||| (1 <<< st.bank)).testBit i = false
      rw [testBit_lor_one_shift (show st.bank < i by omega)]
      exact h0.2.2

theorem bximg_same {B : Nat} {st st' : BxState} (h : BxImg B st)
    (hh : st'.hw = st.hw) (hb : st'.bank = st.bank) : BxImg B st' := by
  refine ⟨?_, ?_, ?_, ?_⟩
  · rw [hb]; exact h.bank_le
  · rw [hh]; exact h.fr1_len
  · rw [hh]; exact h.fr2_len
  · rw [hh, hb]; exact h.high_zero

theorem emit_std_list_img (B : Nat) (st : BxState) (i1 i2 i3 i4 : Nat)
    (h : BxImg B st) : BxImg B (emit_std_list B st i1 i2 i3 i4).2 := by
  unfold emit_std_list
  by_cases hfull : st.bank ≥ B
  · rw [if_pos hfull]; exact h
  · rw [if_neg hfull]
    by_cases hparam : i1 > max_std_id ∨ i2 > max_std_id ∨ i3 > max_std_id ∨ i4 > max_std_id
    · rw [if_pos hparam]; exact h
    · rw [if_neg hparam]
      exact bximg_update B st (by omega) h _ _ _ _

theorem emit_std_mask_img (B : Nat) (st : BxState) (i1 m1 i2 m2 : Nat)
    (h : BxImg B st) : BxImg B (emit_std_mask B st i1 m1 i2 m2).2 := by
  unfold emit_std_mask
  by_cases hfull : st.bank ≥ B
  · rw [if_pos hfull]; exact h
  · rw [if_neg hfull]
    by_cases hparam : i1 > max_std_id ∨ m1 > max_std_id ∨ i2 > max_std_id ∨ m2 > max_std_id
    · rw [if_pos hparam]; exact h
    · rw [if_neg hparam]
      exact bximg_update B st (by omega) h _ _ _ _

theorem emit_ext_list_img (B : Nat) (st : BxState) (i1 i2 : Nat)
    (h : BxImg B st) : BxImg B (emit_ext_list B st i1 i2).2 := by
  unfold emit_ext_list
  by_cases hfull : st.bank ≥ B
  · rw [if_pos hfull]; exact h
  · rw [if_neg hfull]
    by_cases hparam : i1 > max_ext_id ∨ i2 > max_ext_id
    · rw [if_pos hparam]; exact h
    · rw [if_neg hparam]
      exact bximg_update B st (by omega) h _ _ _ _

theorem emit_ext_mask_img (B : Nat) (st : BxState) (i1 m1 : Nat)
    (h : BxImg B st) : BxImg B (emit_ext_mask B st i1 m1).2 := by
  unfold emit_ext_mask
  by_cases hfull : st.bank ≥ B
  · rw [if_pos hfull]; exact h
  · rw [if_neg hfull]
    by_cases hparam : i1 > max_ext_id ∨ m1 > max_ext_id
    · rw [if_pos hparam]; exact h
    · rw [if_neg hparam]
      exact bximg_update B st (by omega) h _ _ _ _

theorem emit_std_list_acc (B : Nat) (st : BxState) (i1 i2 i3 i4 : Nat) :
    (emit_std_list B st i1 i2 i3 i4).2.std_list = st.std_list ∧
    (emit_std_list B st i1 i2 i3 i4).2.std_mask = st.std_mask ∧
    (emit_std_list B st i1 i2 i3 i4).2.ext_list = st.ext_list := by
  unfold emit_std_list
  split
  · exact ⟨rfl, rfl, rfl⟩
  split
  · exact ⟨rfl, rfl, rfl⟩
  · exact ⟨rfl, rfl, rfl⟩

theorem emit_std_mask_acc (B : Nat) (st : BxState) (i1 m1 i2 m2 : Nat) :
    (emit_std_mask B st i1 m1 i2 m2).2.std_list = st.std_list ∧
    (emit_std_mask B st i1 m1 i2 m2).2.std_mask = st.std_mask ∧
    (emit_std_mask B st i1 m1 i2 m2).2.ext_list = st.ext_list := by
  unfold emit_std_mask
  split
  · exact ⟨rfl, rfl, rfl⟩
  split
  · exact ⟨rfl, rfl, rfl⟩
  · exact ⟨rfl, rfl, rfl⟩

theorem emit_ext_list_acc (B : Nat) (st : BxState) (i1 i2 : Nat) :
    (emit_ext_list B st i1 i2).2.std_list = st.std_list ∧
    (emit_ext_list B st i1 i2).2.std_mask = st.std_mask ∧
    (emit_ext_list B st i1 i2).2.ext_list = st.ext_list := by
  unfold emit_ext_list
  split
  · exact ⟨rfl, rfl, rfl⟩
  split
  · exact ⟨rfl, rfl, rfl⟩
  · exact ⟨rfl, rfl, rfl⟩

theorem emit_ext_mask_acc (B : Nat) (st : BxState) (i1 m1 : Nat) :
    (emit_ext_mask B st i1 m1).2.std_list = st.std_list ∧
    (emit_ext_mask B st i1 m1).2.std_mask = st.std_mask ∧
    (emit_ext_mask B st i1 m1).2.ext_list = st.ext_list ∧
    (emit_ext_mask B st i1 m1).2.std_list_count = st.std_list_count ∧
    (emit_ext_mask B st i1 m1).2.std_mask_count = st.std_mask_count ∧
    (emit_ext_mask B st i1 m1).2.ext_list_count = st.ext_list_count := by
  unfold emit_ext_mask
  split
  · exact ⟨rfl, rfl, rfl, rfl, rfl, rfl⟩
  split
  · exact ⟨rfl, rfl, rfl, rfl, rfl, rfl⟩
  · exact ⟨rfl, rfl, rfl, rfl, rfl, rfl⟩

theorem bxacc_of_fields {st st' : BxState} (h : BxAcc st)
    (h1 : st'.std_list = st.std_list) (h2 : st'.std_list_count = st.std_list_count)
    (h3 : st'.std_mask = st.std_mask) (h4 : st'.std_mask_count = st.std_mask_count)
    (h5 : st'.ext_list = st.ext_list) (h6 : st'.ext_list_count = st.ext_list_count) :
    BxAcc st' := by
  refine ⟨?_, ?_, ?_, ?_, ?_, ?_, ?_, ?_, ?_⟩
  · rw [h2]; exact h.sl_count
  · rw [h4]; exact h.sm_count
  · rw [h6]; exact h.el_count
  · rw [h1]; exact h.sl_len
  · rw [h3]; exact h.sm_len
  · rw [h5]; exact h.el_len
  · rw [h1]; exact h.sl_bound
  · rw [h3]; exact h.sm_bound
  · rw [h5]; exact h.el_bound

theorem add_std_list_inv (B : Nat) (st : BxState) (id : Nat)
    (himg : BxImg B st) (hacc : BxAcc st) (hid : id ≤ max_std_id) :
    BxImg B (add_std_list B st id).2 ∧ BxAcc (add_std_list B st id).2 := by
  unfold add_std_list
  by_cases hc : st.std_list_count > 3
  · rw [if_pos hc]
    exact ⟨himg, hacc⟩
  · rw [if_neg hc]
    dsimp only
    by_cases h1 : st.std_list_count + 1 = 1
    · rw [if_pos h1]
      refine ⟨bximg_same himg rfl rfl, ?_⟩
      refine ⟨?_, hacc.sm_count, hacc.el_count, ?_, hacc.sm_len, hacc.el_len, ?_,
        hacc.sm_bound, hacc.el_bound⟩
      · show st.std_list_count + 1 ≤ 3
        omega
      · show ((((st.std_list.set st.std_list_count id).set 1 id).set 2 id).set 3 id).length = 4
        simp [hacc.sl_len]
      · show ∀ x ∈ (((st.std_list.set st.std_list_count id).set 1 id).set 2 id).set 3 id,
          x ≤ max_std_id
        exact mem_set_prop (mem_set_prop (mem_set_prop (mem_set_prop hacc.sl_bound hid _)
          hid _) hid _) hid _
    · rw [if_neg h1]
      by_cases h4 : st.std_list_count + 1 = 4
      · rw [if_pos h4]
        have hst1img : BxImg B { st with
            std_list := st.std_list.set st.std_list_count id,
            std_list_count := st.std_list_count + 1 } := bximg_same himg rfl rfl
        have hemitimg := emit_std_list_img B
          { st with std_list := st.std_list.set st.std_list_count id,
                    std_list_count := st.std_list_count + 1 }
          ((st.std_list.set st.std_list_count id).getD 0 0)
          ((st.std_list.set st.std_list_count id).getD 1 0)
          ((st.std_list.set st.std_list_count id).getD 2 0)
          ((st.std_list.set st.std_list_count id).getD 3 0) hst1img
        have hemitacc := emit_std_list_acc B
          { st with std_list := st.std_list.set st.std_list_count id,
                    std_list_count := st.std_list_count + 1 }
          ((st.std_list.set st.std_list_count id).getD 0 0)
          ((st.std_list.set st.std_list_count id).getD 1 0)
          ((st.std_list.set st.std_list_count id).getD 2 0)
          ((st.std_list.set st.std_list_count id).getD 3 0)
        have hcnt := emit_std_list_counts B
          { st with std_list := st.std_list.set st.std_list_count id,
                    std_list_count := st.std_list_count + 1 }
          ((st.std_list.set st.std_list_count id).getD 0 0)
          ((st.std_list.set st.std_list_count id).getD 1 0)
          ((st.std_list.set st.std_list_count id).getD 2 0)
          ((st.std_list.set st.std_list_count id).getD 3 0)
        constructor
        · exact bximg_same hemitimg rfl rfl
        · refine ⟨?_, ?_, ?_, ?_, ?_, ?_, ?_, ?_, ?_⟩
          · show (0 : Nat) ≤ 3
            omega
          · show (emit_std_list B _ _ _ _ _).2.std_mask_count ≤ 1
            rw [hcnt.2.1]
            exact hacc.sm_count
          · show (emit_std_list B _ _ _ _ _).2.ext_list_count ≤ 1
            rw [hcnt.2.2]
            exact hacc.el_count
          · show (emit_std_list B _ _ _ _ _).2.std_list.length = 4
            rw [hemitacc.1]
            simp [hacc.sl_len]
          · show (emit_std_list B _ _ _ _ _).2.std_mask.length = 2
            rw [hemitacc.2.1]
            exact hacc.sm_len
          · show (emit_std_list B _ _ _ _ _).2.ext_list.length = 2
            rw [hemitacc.2.2]
            exact hacc.el_len
          · show ∀ x ∈ (emit_std_list B _ _ _ _ _).2.std_list, x ≤ max_std_id
            rw [hemitacc.1]
            exact mem_set_prop hacc.sl_bound hid _
          · show ∀ q ∈ (emit_std_list B _ _ _ _ _).2.std_mask,
              q.1 ≤ max_std_id ∧ q.2 ≤ max_std_id
            rw [hemitacc.2.1]
            exact hacc.sm_bound
          · show ∀ x ∈ (emit_std_list B _ _ _ _ _).2.ext_list, x ≤ max_ext_id
            rw [hemitacc.2.2]
            exact hacc.el_bound
      · rw [if_neg h4]
        refine ⟨bximg_same himg rfl rfl, ?_⟩
        refine ⟨?_, hacc.sm_count, hacc.el_count, ?_, hacc.sm_len, hacc.el_len, ?_,
          hacc.sm_bound, hacc.el_bound⟩
        · show st.std_list_count + 1 ≤ 3
          omega
        · show (st.std_list.set st.std_list_count id).length = 4
          simp [hacc.sl_len]
        · exact mem_set_prop hacc.sl_bound hid _

theorem add_std_mask_inv (B : Nat) (st : BxState) (id mask : Nat)
    (himg : BxImg B st) (hacc : BxAcc st) (hid : id ≤ max_std_id)
    (hmask : mask ≤ max_std_id) :
    BxImg B (add_std_mask B st id mask).2 ∧ BxAcc (add_std_mask B st id mask).2 := by
  unfold add_std_mask
  by_cases hc : st.std_mask_count > 1
  · rw [if_pos hc]
    exact ⟨himg, hacc⟩
  · rw [if_neg hc]
    dsimp only
    by_cases h1 : st.std_mask_count + 1 = 1
    · rw [if_pos h1]
      refine ⟨bximg_same himg rfl rfl, ?_⟩
      refine ⟨hacc.sl_count, ?_, hacc.el_count, hacc.sl_len, ?_, hacc.el_len,
        hacc.sl_bound, ?_, hacc.el_bound⟩
      · show st.std_mask_count + 1 ≤ 1
        omega
      · show ((st.std_mask.set st.std_mask_count (id, mask)).set 1 (id, mask)).length = 2
        simp [hacc.sm_len]
      · show ∀ q ∈ (st.std_mask.set st.std_mask_count (id, mask)).set 1 (id, mask),
          q.1 ≤ max_std_id ∧ q.2 ≤ max_std_id
        exact mem_set_prop (mem_set_prop hacc.sm_bound ⟨hid, hmask⟩ _) ⟨hid, hmask⟩ _
    · rw [if_neg h1]
      by_cases h2 : st.std_mask_count + 1 = 2
      · rw [if_pos h2]
        have hemitimg := emit_std_mask_img B
          { st with std_mask := st.std_mask.set st.std_mask_count (id, mask),
                    std_mask_count := st.std_mask_count + 1 }
          ((st.std_mask.set st.std_mask_count (id, mask)).getD 0 (0, 0)).1
          ((st.std_mask.set st.std_mask_count (id, mask)).getD 0 (0, 0)).2
          ((st.std_mask.set st.std_mask_count (id, mask)).getD 1 (0, 0)).1
          ((st.std_mask.set st.std_mask_count (id, mask)).getD 1 (0, 0)).2
          (bximg_same himg rfl rfl)
        have hemitacc := emit_std_mask_acc B
          { st with std_mask := st.std_mask.set st.std_mask_count (id, mask),
                    std_mask_count := st.std_mask_count + 1 }
          ((st.std_mask.set st.std_mask_count (id, mask)).getD 0 (0, 0)).1
          ((st.std_mask.set st.std_mask_count (id, mask)).getD 0 (0, 0)).2
          ((st.std_mask.set st.std_mask_count (id, mask)).getD 1 (0, 0)).1
          ((st.std_mask.set st.std_mask_count (id, mask)).getD 1 (0, 0)).2
        have hcnt := emit_std_mask_counts B
          { st with std_mask := st.std_mask.set st.std_mask_count (id, mask),
                    std_mask_count := st.std_mask_count + 1 }
          ((st.std_mask.set st.std_mask_count (id, mask)).getD 0 (0, 0)).1
          ((st.std_mask.set st.std_mask_count (id, mask)).getD 0 (0, 0)).2
          ((st.std_mask.set st.std_mask_count (id, mask)).getD 1 (0, 0)).1
          ((st.std_mask.set st.std_mask_count (id, mask)).getD 1 (0, 0)).2
        constructor
        · exact bximg_same hemitimg rfl rfl
        · refine ⟨?_, ?_, ?_, ?_, ?_, ?_, ?_, ?_, ?_⟩
          · show (emit_std_mask B _ _ _ _ _).2.std_list_count ≤ 3
            rw [hcnt.1]
            exact hacc.sl_count
          · show (0 : Nat) ≤ 1
            omega
          · show (emit_std_mask B _ _ _ _ _).2.ext_list_count ≤ 1
            rw [hcnt.2.2]
            exact hacc.el_count
          · show (emit_std_mask B _ _ _ _ _).2.std_list.length = 4
            rw [hemitacc.1]
            exact hacc.sl_len
          · show (emit_std_mask B _ _ _ _ _).2.std_mask.length = 2
            rw [hemitacc.2.1]
            simp [hacc.sm_len]
          · show (emit_std_mask B _ _ _ _ _).2.ext_list.length = 2
            rw [hemitacc.2.2]
            exact hacc.el_len
          · show ∀ x ∈ (emit_std_mask B _ _ _ _ _).2.std_list, x ≤ max_std_id
            rw [hemitacc.1]
            exact hacc.sl_bound
          · show ∀ q ∈ (emit_std_mask B _ _ _ _ _).2.std_mask,
              q.1 ≤ max_std_id ∧ q.2 ≤ max_std_id
            rw [hemitacc.2.1]
            exact mem_set_prop hacc.sm_bound ⟨hid, hmask⟩ _
          · show ∀ x ∈ (emit_std_mask B _ _ _ _ _).2.ext_list, x ≤ max_ext_id
            rw [hemitacc.2.2]
            exact hacc.el_bound
      · rw [if_neg h2]
        refine ⟨bximg_same himg rfl rfl, ?_⟩
        refine ⟨hacc.sl_count, ?_, hacc.el_count, hacc.sl_len, ?_, hacc.el_len,
          hacc.sl_bound, ?_, hacc.el_bound⟩
        · show st.std_mask_count + 1 ≤ 1
          omega
        · show (st.std_mask.set st.std_mask_count (id, mask)).length = 2
          simp [hacc.sm_len]
        · exact mem_set_prop hacc.sm_bound ⟨hid, hmask⟩ _

theorem add_ext_list_inv (B : Nat) (st : BxState) (id : Nat)
    (himg : BxImg B st) (hacc : BxAcc st) (hid : id ≤ max_ext_id) :
    BxImg B (add_ext_list B st id).2 ∧ BxAcc (add_ext_list B st id).2 := by
  unfold add_ext_list
  by_cases hc : st.ext_list_count > 1
  · rw [if_pos hc]
    exact ⟨himg, hacc⟩
  · rw [if_neg hc]
    dsimp only
    by_cases h1 : st.ext_list_count + 1 = 1
    · rw [if_pos h1]
      refine ⟨bximg_same himg rfl rfl, ?_⟩
      refine ⟨hacc.sl_count, hacc.sm_count, ?_, hacc.sl_len, hacc.sm_len, ?_,
        hacc.sl_bound, hacc.sm_bound, ?_⟩
      · show st.ext_list_count + 1 ≤ 1
        omega
      · show ((st.ext_list.set st.ext_list_count id).set 1 id).length = 2
        simp [hacc.el_len]
      · show ∀ x ∈ (st.ext_list.set st.ext_list_count id).set 1 id, x ≤ max_ext_id
        exact mem_set_prop (mem_set_prop hacc.el_bound hid _) hid _
    · rw [if_neg h1]
      by_cases h2 : st.ext_list_count + 1 = 2
      · rw [if_pos h2]
        have hemitimg := emit_ext_list_img B
          { st with ext_list := st.ext_list.set st.ext_list_count id,
                    ext_list_count := st.ext_list_count + 1 }
          ((st.ext_list.set st.ext_list_count id).getD 0 0)
          ((st.ext_list.set st.ext_list_count id).getD 1 0)
          (bximg_same himg rfl rfl)
        have hemitacc := emit_ext_list_acc B
          { st with ext_list := st.ext_list.set st.ext_list_count id,
                    ext_list_count := st.ext_list_count + 1 }
          ((st.ext_list.set st.ext_list_count id).getD 0 0)
          ((st.ext_list.set st.ext_list_count id).getD 1 0)
        have hcnt := emit_ext_list_counts B
          { st with ext_list := st.ext_list.set st.ext_list_count id,
                    ext_list_count := st.ext_list_count + 1 }
          ((st.ext_list.set st.ext_list_count id).getD 0 0)
          ((st.ext_list.set st.ext_list_count id).getD 1 0)
        constructor
        · exact bximg_same hemitimg rfl rfl
        · refine ⟨?_, ?_, ?_, ?_, ?_, ?_, ?_, ?_, ?_⟩
          · show (emit_ext_list B _ _ _).2.std_list_count ≤ 3
            rw [hcnt.1]
            exact hacc.sl_count
          · show (emit_ext_list B _ _ _).2.std_mask_count ≤ 1
            rw [hcnt.2.1]
            exact hacc.sm_count
          · show (0 : Nat) ≤ 1
            omega
          · show (emit_ext_list B _ _ _).2.std_list.length = 4
            rw [hemitacc.1]
            exact hacc.sl_len
          · show (emit_ext_list B _ _ _).2.std_mask.length = 2
            rw [hemitacc.2.1]
            exact hacc.sm_len
          · show (emit_ext_list B _ _ _).2.ext_list.length = 2
            rw [hemitacc.2.2]
            simp [hacc.el_len]
          · show ∀ x ∈ (emit_ext_list B _ _ _).2.std_list, x ≤ max_std_id
            rw [hemitacc.1]
            exact hacc.sl_bound
          · show ∀ q ∈ (emit_ext_list B _ _ _).2.std_mask,
              q.1 ≤ max_std_id ∧ q.2 ≤ max_std_id
            rw [hemitacc.2.1]
            exact hacc.sm_bound
          · show ∀ x ∈ (emit_ext_list B _ _ _).2.ext_list, x ≤ max_ext_id
            rw [hemitacc.2.2]
            exact mem_set_prop hacc.el_bound hid _
      · rw [if_neg h2]
        refine ⟨bximg_same himg rfl rfl, ?_⟩
        refine ⟨hacc.sl_count, hacc.sm_count, ?_, hacc.sl_len, hacc.sm_len, ?_,
          hacc.sl_bound, hacc.sm_bound, ?_⟩
        · show st.ext_list_count + 1 ≤ 1
          omega
        · show (st.ext_list.set st.ext_list_count id).length = 2
          simp [hacc.el_len]
        · exact mem_set_prop hacc.el_bound hid _

theorem add_ext_mask_inv (B : Nat) (st : BxState) (id mask : Nat)
    (himg : BxImg B st) (hacc : BxAcc st) :
    BxImg B (add_ext_mask B st id mask).2 ∧ BxAcc (add_ext_mask B st id mask).2 := by
  have hacc' := emit_ext_mask_acc B st id mask
  exact ⟨emit_ext_mask_img B st id mask himg,
    bxacc_of_fields hacc hacc'.1 hacc'.2.2.2.1 hacc'.2.1 hacc'.2.2.2.2.1 hacc'.2.2.1
      hacc'.2.2.2.2.2⟩

theorem blockMask_le_std (b e : Nat) : blockMask 11 (largest_pfx 11 b e) ≤ max_std_id := by
  have h := blockMask_le 11 (largest_pfx 11 b e) (by omega) (pfx_le 11 b e)
  have h2 : (2 : Nat) ^ 11 = 2048 := by norm_num
  unfold max_std_id
  omega

theorem blockMask_le_ext (b e : Nat) : blockMask 29 (largest_pfx 29 b e) ≤ max_ext_id := by
  have h := blockMask_le 29 (largest_pfx 29 b e) (by omega) (pfx_le 29 b e)
  have h2 : (2 : Nat) ^ 29 = 536870912 := by norm_num
  unfold max_ext_id
  omega

theorem std_range_go_inv (B : Nat) : ∀ fuel st b e, BxImg B st → BxAcc st →
    e ≤ max_std_id →
    BxImg B (std_range_go B fuel st b e).2 ∧ BxAcc (std_range_go B fuel st b e).2 := by
  intro fuel
  induction fuel with
  | zero => intro st b e himg hacc _; exact ⟨himg, hacc⟩
  | succ fuel ih =>
    intro st b e himg hacc he
    unfold std_range_go
    by_cases hbe : b ≤ e
    · rw [if_pos hbe]
      dsimp only
      have hb : b ≤ max_std_id := by omega
      by_cases hm : blockMask 11 (largest_pfx 11 b e) = max_std_id
      · rw [if_pos hm]
        have hinv := add_std_list_inv B st b himg hacc hb
        by_cases hsucc : (add_std_list B st b).1 = canfilter_error.success
        · rw [if_pos hsucc]
          exact ih _ _ _ hinv.1 hinv.2 he
        · rw [if_neg hsucc]
          exact hinv
      · rw [if_neg hm]
        have hinv := add_std_mask_inv B st b (blockMask 11 (largest_pfx 11 b e))
          himg hacc hb (blockMask_le_std b e)
        by_cases hsucc :
            (add_std_mask B st b (blockMask 11 (largest_pfx 11 b e))).1 =
              canfilter_error.success
        · rw [if_pos hsucc]
          exact ih _ _ _ hinv.1 hinv.2 he
        · rw [if_neg hsucc]
          exact hinv
    · rw [if_neg hbe]
      exact ⟨himg, hacc⟩

theorem ext_range_go_inv (B : Nat) : ∀ fuel st b e, BxImg B st → BxAcc st →
    e ≤ max_ext_id →
    BxImg B (ext_range_go B fuel st b e).2 ∧ BxAcc (ext_range_go B fuel st b e).2 := by
  intro fuel
  induction fuel with
  | zero => intro st b e himg hacc _; exact ⟨himg, hacc⟩
  | succ fuel ih =>
    intro st b e himg hacc he
    unfold ext_range_go
    by_cases hbe : b ≤ e
    · rw [if_pos hbe]
      dsimp only
      have hb : b ≤ max_ext_id := by omega
      by_cases hm : blockMask 29 (largest_pfx 29 b e) = max_ext_id
      · rw [if_pos hm]
        have hinv := add_ext_list_inv B st b himg hacc hb
        by_cases hsucc : (add_ext_list B st b).1 = canfilter_error.success
        · rw [if_pos hsucc]
          exact ih _ _ _ hinv.1 hinv.2 he
        · rw [if_neg hsucc]
          exact hinv
      · rw [if_neg hm]
        have hinv := add_ext_mask_inv B st b (blockMask 29 (largest_pfx 29 b e))
          himg hacc
        by_cases hsucc :
            (add_ext_mask B st b (blockMask 29 (largest_pfx 29 b e))).1 =
              canfilter_error.success
        · rw [if_pos hsucc]
          exact ih _ _ _ hinv.1 hinv.2 he
        · rw [if_neg hsucc]
          exact hinv
    · rw [if_neg hbe]
      exact ⟨himg, hacc⟩

theorem add_std_range_inv (B : Nat) (st : BxState) (b e : Nat)
    (himg : BxImg B st) (hacc : BxAcc st) :
    BxImg B (add_std_range B st b e).2 ∧ BxAcc (add_std_range B st b e).2 := by
  unfold add_std_range
  by_cases hp : b > max_std_id ∨ e > max_std_id
  · rw [if_pos hp]
    exact ⟨himg, hacc⟩
  · rw [if_neg hp]
    push_neg at hp
    exact std_range_go_inv B _ st _ _ himg hacc (by omega)

theorem add_ext_range_inv (B : Nat) (st : BxState) (b e : Nat)
    (himg : BxImg B st) (hacc : BxAcc st) :
    BxImg B (add_ext_range B st b e).2 ∧ BxAcc (add_ext_range B st b e).2 := by
  unfold add_ext_range
  by_cases hp : b > max_ext_id ∨ e > max_ext_id
  · rw [if_pos hp]
    exact ⟨himg, hacc⟩
  · rw [if_neg hp]
    push_neg at hp
    exact ext_range_go_inv B _ st _ _ himg hacc (by omega)

theorem bx_end_inv (B : Nat) (st : BxState) (himg : BxImg B st) (hacc : BxAcc st) :
    BxImg B (bx_end B st).2 ∧ BxAcc (bx_end B st).2 := by
  have h1 : BxImg B (bx_end1 B st).2 ∧ BxAcc (bx_end1 B st).2 := by
    unfold bx_end1
    split
    · constructor
      · exact emit_std_list_img B st _ _ _ _ himg
      · have ha := emit_std_list_acc B st (st.std_list.getD 0 0) (st.std_list.getD 1 0)
          (st.std_list.getD 2 0) (st.std_list.getD 3 0)
        have hb := emit_std_list_counts B st (st.std_list.getD 0 0) (st.std_list.getD 1 0)
          (st.std_list.getD 2 0) (st.std_list.getD 3 0)
        exact bxacc_of_fields hacc ha.1 hb.1 ha.2.1 hb.2.1 ha.2.2 hb.2.2
    · exact ⟨himg, hacc⟩
  have h2 : ∀ r : canfilter_error × BxState, BxImg B r.2 → BxAcc r.2 →
      BxImg B (bx_end2 B r).2 ∧ BxAcc (bx_end2 B r).2 := by
    intro r hrimg hracc
    unfold bx_end2
    split
    · constructor
      · exact emit_std_mask_img B r.2 _ _ _ _ hrimg
      · have ha := emit_std_mask_acc B r.2 (r.2.std_mask.getD 0 (0, 0)).1
          (r.2.std_mask.getD 0 (0, 0)).2 (r.2.std_mask.getD 1 (0, 0)).1
          (r.2.std_mask.getD 1 (0, 0)).2
        have hb := emit_std_mask_counts B r.2 (r.2.std_mask.getD 0 (0, 0)).1
          (r.2.std_mask.getD 0 (0, 0)).2 (r.2.std_mask.getD 1 (0, 0)).1
          (r.2.std_mask.getD 1 (0, 0)).2
        exact bxacc_of_fields hracc ha.1 hb.1 ha.2.1 hb.2.1 ha.2.2 hb.2.2
    · exact ⟨hrimg, hracc⟩
  have h3 : ∀ r : canfilter_error × BxState, BxImg B r.2 → BxAcc r.2 →
      BxImg B (bx_end3 B r).2 ∧ BxAcc (bx_end3 B r).2 := by
    intro r hrimg hracc
    unfold bx_end3
    split
    · constructor
      · exact emit_ext_list_img B r.2 _ _ hrimg
      · have ha := emit_ext_list_acc B r.2 (r.2.ext_list.getD 0 0) (r.2.ext_list.getD 1 0)
        have hb := emit_ext_list_counts B r.2 (r.2.ext_list.getD 0 0) (r.2.ext_list.getD 1 0)
        exact bxacc_of_fields hracc ha.1 hb.1 ha.2.1 hb.2.1 ha.2.2 hb.2.2
    · exact ⟨hrimg, hracc⟩
  unfold bx_end
  have s1 := h1
  have s2 := h2 (bx_end1 B st) s1.1 s1.2
  exact h3 (bx_end2 B (bx_end1 B st)) s2.1 s2.2

theorem bx_begin_inv (B dev : Nat) : BxImg B (bx_begin B dev) ∧ BxAcc (bx_begin B dev) := by
  constructor
  · refine ⟨Nat.zero_le _, ?_, ?_, ?_⟩
    · simp [bx_begin]
    · simp [bx_begin]
    · intro i _
      refine ⟨?_, ?_, ?_⟩
      · exact getD_replicate B i 0
      · exact getD_replicate B i 0
      · exact Nat.zero_testBit i
  · refine ⟨Nat.zero_le _, Nat.zero_le _, Nat.zero_le _, ?_, ?_, ?_, ?_, ?_, ?_⟩
    · simp [bx_begin]
    · simp [bx_begin]
    · simp [bx_begin]
    · intro x hx
      have := List.eq_of_mem_replicate hx
      subst this
      exact Nat.zero_le _
    · intro q hq
      have := List.eq_of_mem_replicate hq
      subst this
      exact ⟨Nat.zero_le _, Nat.zero_le _⟩
    · intro x hx
      have := List.eq_of_mem_replicate hx
      subst this
      exact Nat.zero_le _

theorem bx_apply_inv (B : Nat) (st : BxState) (c : BxCall)
    (himg : BxImg B st) (hacc : BxAcc st) :
    BxImg B (bx_apply B st c) ∧ BxAcc (bx_apply B st c) := by
  cases c with
  | stdId id => exact add_std_range_inv B st id id himg hacc
  | extId id => exact add_ext_range_inv B st id id himg hacc
  | stdRange a b => exact add_std_range_inv B st a b himg hacc
  | extRange a b => exact add_ext_range_inv B st a b himg hacc
  | endCall => exact bx_end_inv B st himg hacc

theorem bx_foldl_inv (B : Nat) : ∀ (calls : List BxCall) (st : BxState),
    BxImg B st → BxAcc st →
    BxImg B (calls.foldl (bx_apply B) st) ∧ BxAcc (calls.foldl (bx_apply B) st) := by
  intro calls
  induction calls with
  | nil => intro st himg hacc; exact ⟨himg, hacc⟩
  | cons c calls ih =>
    intro st himg hacc
    have h := bx_apply_inv B st c himg hacc
    exact ih (bx_apply B st c) h.1 h.2

theorem bx_run_inv (B dev : Nat) (calls : List BxCall) :
    BxImg B (bx_run B dev calls) ∧ BxAcc (bx_run B dev calls) := by
  unfold bx_run
  have h := bx_begin_inv B dev
  exact bx_foldl_inv B calls (bx_begin B dev) h.1 h.2

/-- C7: every bxCAN builder state reachable by `begin()` followed by any
sequence of `add_std_id` / `add_ext_id` / `add_std_range` / `add_ext_range`
/ `end` calls has `bank ≤ B`, and every bank at or beyond the counter is
still blank: `FR1[i] = 0`, `FR2[i] = 0` and bit `i` of `FA1R` clear. -/
theorem bxcan_reachable_invariant (B dev : Nat) (calls : List BxCall) :
    (bx_run B dev calls).bank ≤ B ∧
    ∀ i, (bx_run B dev calls).bank ≤ i →
      (bx_run B dev calls).hw.fr1.getD i 0 = 0 ∧
      (bx_run B dev calls).hw.fr2.getD i 0 = 0 ∧
      (bx_run B dev calls).hw.fa1r.testBit i = false := by
  have h := (bx_run_inv B dev calls).1
  exact ⟨h.bank_le, h.high_zero⟩

/-! ## The `Param` branch is unreachable from the range decomposition (C10) -/

theorem blockMask_le_std_p (p : Nat) (hp : p ≤ 11) : blockMask 11 p ≤ max_std_id := by
  have h := blockMask_le 11 p (by omega) hp
  have h2 : (2 : Nat) ^ 11 = 2048 := by norm_num
  unfold max_std_id
  omega

theorem blockMask_le_ext_p (p : Nat) (hp : p ≤ 29) : blockMask 29 p ≤ max_ext_id := by
  have h := blockMask_le 29 p (by omega) hp
  have h2 : (2 : Nat) ^ 29 = 536870912 := by norm_num
  unfold max_ext_id
  omega

theorem emit_std_list_err (B : Nat) (st : BxState) (i1 i2 i3 i4 : Nat)
    (h1 : i1 ≤ max_std_id) (h2 : i2 ≤ max_std_id) (h3 : i3 ≤ max_std_id)
    (h4 : i4 ≤ max_std_id) :
    (emit_std_list B st i1 i2 i3 i4).1 = .success ∨
    (emit_std_list B st i1 i2 i3 i4).1 = .full := by
  unfold emit_std_list
  by_cases hfull : st.bank ≥ B
  · rw [if_pos hfull]
    right
    rfl
  · rw [if_neg hfull, if_neg (by omega)]
    left
    rfl

theorem emit_std_mask_err (B : Nat) (st : BxState) (i1 m1 i2 m2 : Nat)
    (h1 : i1 ≤ max_std_id) (h2 : m1 ≤ max_std_id) (h3 : i2 ≤ max_std_id)
    (h4 : m2 ≤ max_std_id) :
    (emit_std_mask B st i1 m1 i2 m2).1 = .success ∨
    (emit_std_mask B st i1 m1 i2 m2).1 = .full := by
  unfold emit_std_mask
  by_cases hfull : st.bank ≥ B
  · rw [if_pos hfull]
    right
    rfl
  · rw [if_neg hfull, if_neg (by omega)]
    left
    rfl

theorem emit_ext_list_err (B : Nat) (st : BxState) (i1 i2 : Nat)
    (h1 : i1 ≤ max_ext_id) (h2 : i2 ≤ max_ext_id) :
    (emit_ext_list B st i1 i2).1 = .success ∨ (emit_ext_list B st i1 i2).1 = .full := by
  unfold emit_ext_list
  by_cases hfull : st.bank ≥ B
  · rw [if_pos hfull]
    right
    rfl
  · rw [if_neg hfull, if_neg (by omega)]
    left
    rfl

theorem emit_ext_mask_err (B : Nat) (st : BxState) (i1 m1 : Nat)
    (h1 : i1 ≤ max_ext_id) (h2 : m1 ≤ max_ext_id) :
    (emit_ext_mask B st i1 m1).1 = .success ∨ (emit_ext_mask B st i1 m1).1 = .full := by
  unfold emit_ext_mask
  by_cases hfull : st.bank ≥ B
  · rw [if_pos hfull]
    right
    rfl
  · rw [if_neg hfull, if_neg (by omega)]
    left
    rfl

theorem add_std_list_err (B : Nat) (st : BxState) (id : Nat)
    (hacc : BxAcc st) (hid : id ≤ max_std_id) :
    (add_std_list B st id).1 = .success ∨ (add_std_list B st id).1 = .full := by
  unfold add_std_list
  rw [if_neg (by have := hacc.sl_count; omega)]
  dsimp only
  by_cases h1 : st.std_list_count + 1 = 1
  · rw [if_pos h1]
    left
    rfl
  · rw [if_neg h1]
    by_cases h4 : st.std_list_count + 1 = 4
    · rw [if_pos h4]
      have hbound : ∀ x ∈ st.std_list.set st.std_list_count id, x ≤ max_std_id :=
        mem_set_prop hacc.sl_bound hid _
      exact emit_std_list_err B _ _ _ _ _
        (getD_prop hbound (Nat.zero_le _) 0) (getD_prop hbound (Nat.zero_le _) 1)
        (getD_prop hbound (Nat.zero_le _) 2) (getD_prop hbound (Nat.zero_le _) 3)
    · rw [if_neg h4]
      left
      rfl

theorem add_std_mask_err (B : Nat) (st : BxState) (id mask : Nat)
    (hacc : BxAcc st) (hid : id ≤ max_std_id) (hmask : mask ≤ max_std_id) :
    (add_std_mask B st id mask).1 = .success ∨ (add_std_mask B st id mask).1 = .full := by
  unfold add_std_mask
  rw [if_neg (by have := hacc.sm_count; omega)]
  dsimp only
  by_cases h1 : st.std_mask_count + 1 = 1
  · rw [if_pos h1]
    left
    rfl
  · rw [if_neg h1]
    by_cases h2 : st.std_mask_count + 1 = 2
    · rw [if_pos h2]
      have hbound : ∀ q ∈ st.std_mask.set st.std_mask_count (id, mask),
          q.1 ≤ max_std_id ∧ q.2 ≤ max_std_id :=
        mem_set_prop hacc.sm_bound ⟨hid, hmask⟩ _
      exact emit_std_mask_err B _ _ _ _ _
        (getD_prop hbound ⟨Nat.zero_le _, Nat.zero_le _⟩ 0).1
        (getD_prop hbound ⟨Nat.zero_le _, Nat.zero_le _⟩ 0).2
        (getD_prop hbound ⟨Nat.zero_le _, Nat.zero_le _⟩ 1).1
        (getD_prop hbound ⟨Nat.zero_le _, Nat.zero_le _⟩ 1).2
    · rw [if_neg h2]
      left
      rfl

theorem add_ext_list_err (B : Nat) (st : BxState) (id : Nat)
    (hacc : BxAcc st) (hid : id ≤ max_ext_id) :
    (add_ext_list B st id).1 = .success ∨ (add_ext_list B st id).1 = .full := by
  unfold add_ext_list
  rw [if_neg (by have := hacc.el_count; omega)]
  dsimp only
  by_cases h1 : st.ext_list_count + 1 = 1
  · rw [if_pos h1]
    left
    rfl
  · rw [if_neg h1]
    by_cases h2 : st.ext_list_count + 1 = 2
    · rw [if_pos h2]
      have hbound : ∀ x ∈ st.ext_list.set st.ext_list_count id, x ≤ max_ext_id :=
        mem_set_prop hacc.el_bound hid _
      exact emit_ext_list_err B _ _ _
        (getD_prop hbound (Nat.zero_le _) 0) (getD_prop hbound (Nat.zero_le _) 1)
    · rw [if_neg h2]
      left
      rfl

theorem std_range_go_err (B : Nat) : ∀ fuel st b e, BxImg B st → BxAcc st →
    e ≤ max_std_id →
    (std_range_go B fuel st b e).1 = .success ∨ (std_range_go B fuel st b e).1 = .full := by
  intro fuel
  induction fuel with
  | zero =>
    intro st b e _ _ _
    left
    rfl
  | succ fuel ih =>
    intro st b e himg hacc he
    unfold std_range_go
    by_cases hbe : b ≤ e
    · rw [if_pos hbe]
      dsimp only
      have hb : b ≤ max_std_id := by omega
      by_cases hm : blockMask 11 (largest_pfx 11 b e) = max_std_id
      · rw [if_pos hm]
        have hinv := add_std_list_inv B st b himg hacc hb
        by_cases hsucc : (add_std_list B st b).1 = canfilter_error.success
        · rw [if_pos hsucc]
          exact ih _ _ _ hinv.1 hinv.2 he
        · rw [if_neg hsucc]
          exact add_std_list_err B st b hacc hb
      · rw [if_neg hm]
        have hinv := add_std_mask_inv B st b (blockMask 11 (largest_pfx 11 b e))
          himg hacc hb (blockMask_le_std b e)
        by_cases hsucc :
            (add_std_mask B st b (blockMask 11 (largest_pfx 11 b e))).1 =
              canfilter_error.success
        · rw [if_pos hsucc]
          exact ih _ _ _ hinv.1 hinv.2 he
        · rw [if_neg hsucc]
          exact add_std_mask_err B st b _ hacc hb (blockMask_le_std b e)
    · rw [if_neg hbe]
      left
      rfl

theorem ext_range_go_err (B : Nat) : ∀ fuel st b e, BxImg B st → BxAcc st →
    e ≤ max_ext_id →
    (ext_range_go B fuel st b e).1 = .success ∨ (ext_range_go B fuel st b e).1 = .full := by
  intro fuel
  induction fuel with
  | zero =>
    intro st b e _ _ _
    left
    rfl
  | succ fuel ih =>
    intro st b e himg hacc he
    unfold ext_range_go
    by_cases hbe : b ≤ e
    · rw [if_pos hbe]
      dsimp only
      have hb : b ≤ max_ext_id := by omega
      by_cases hm : blockMask 29 (largest_pfx 29 b e) = max_ext_id
      · rw [if_pos hm]
        have hinv := add_ext_list_inv B st b himg hacc hb
        by_cases hsucc : (add_ext_list B st b).1 = canfilter_error.success
        · rw [if_pos hsucc]
          exact ih _ _ _ hinv.1 hinv.2 he
        · rw [if_neg hsucc]
          exact add_ext_list_err B st b hacc hb
      · rw [if_neg hm]
        have hinv := add_ext_mask_inv B st b (blockMask 29 (largest_pfx 29 b e))
          himg hacc
        by_cases hsucc :
            (add_ext_mask B st b (blockMask 29 (largest_pfx 29 b e))).1 =
              canfilter_error.success
        · rw [if_pos hsucc]
          exact ih _ _ _ hinv.1 hinv.2 he
        · rw [if_neg hsucc]
          exact emit_ext_mask_err B st b _ hb (blockMask_le_ext b e)
    · rw [if_neg hbe]
      left
      rfl

/-- C10: from any reachable builder state, `add_std_range` with endpoints
in the 11-bit space generates only `(id, mask)` pairs inside the space, so
the `Param` branches of the emitters are unreachable and the call returns
`Success` or `Full`; analogously for `add_ext_range` with the 29-bit bound. -/
theorem bxcan_range_no_param (B dev : Nat) (calls : List BxCall) (a e : Nat) :
    (a ≤ max_std_id → e ≤ max_std_id →
      ((add_std_range B (bx_run B dev calls) a e).1 = .success ∨
       (add_std_range B (bx_run B dev calls) a e).1 = .full) ∧
      ∀ blk ∈ rangeBlocks 11 (min a e) (max a e),
        blk.1 ≤ max_std_id ∧ blk.2 ≤ max_std_id) ∧
    (a ≤ max_ext_id → e ≤ max_ext_id →
      ((add_ext_range B (bx_run B dev calls) a e).1 = .success ∨
       (add_ext_range B (bx_run B dev calls) a e).1 = .full) ∧
      ∀ blk ∈ rangeBlocks 29 (min a e) (max a e),
        blk.1 ≤ max_ext_id ∧ blk.2 ≤ max_ext_id) := by
  have hinv := bx_run_inv B dev calls
  constructor
  · intro ha he
    constructor
    · unfold add_std_range
      rw [if_neg (by omega)]
      exact std_range_go_err B _ _ _ _ hinv.1 hinv.2 (by omega)
    · intro blk hmem
      rcases rb_go_shape 11 (max a e) _ _ blk hmem with ⟨p, hpW, hbm, _, hble, _⟩
      refine ⟨by omega, ?_⟩
      rw [hbm]
      exact blockMask_le_std_p p hpW
  · intro ha he
    constructor
    · unfold add_ext_range
      rw [if_neg (by omega)]
      exact ext_range_go_err B _ _ _ _ hinv.1 hinv.2 (by omega)
    · intro blk hmem
      rcases rb_go_shape 29 (max a e) _ _ blk hmem with ⟨p, hpW, hbm, _, hble, _⟩
      refine ⟨by omega, ?_⟩
      rw [hbm]
      exact blockMask_le_ext_p p hpW

/-- Witness for C10 at `B = 14`, the empty call sequence and the range `0..5`. -/
theorem bxcan_range_no_param_witness :
    ((add_std_range 14 (bx_run 14 1 []) 0 5).1 = .success ∨
     (add_std_range 14 (bx_run 14 1 []) 0 5).1 = .full) ∧
    (((0 : Nat), (0x7FC : Nat)).1 ≤ max_std_id ∧
      ((0 : Nat), (0x7FC : Nat)).2 ≤ max_std_id) ∧
    ((add_ext_range 14 (bx_run 14 1 []) 0 5).1 = .success ∨
     (add_ext_range 14 (bx_run 14 1 []) 0 5).1 = .full) ∧
    (((0 : Nat), (0x1FFFFFFC : Nat)).1 ≤ max_ext_id ∧
      ((0 : Nat), (0x1FFFFFFC : Nat)).2 ≤ max_ext_id) := by
  have h := bxcan_range_no_param 14 1 [] 0 5
  have h1 := h.1 (by decide) (by decide)
  have h2 := h.2 (by decide) (by decide)
  exact ⟨h1.1, h1.2 (0, 0x7FC) (by decide), h2.1, h2.2 (0, 0x1FFFFFFC) (by decide)⟩

/-! ## The textual filter parser (`canfilter::parse`, claims C6, C9)

The parser is written against the abstract builder interface (the virtual
`add_*` members of `canfilter`); the C++ code discards the error codes the
builder returns.  `strtoul` with base 0 is modelled including whitespace
skipping, an optional sign, hex/octal/decimal detection, 64-bit overflow
(`ERANGE`) and the truncation of the returned `unsigned long` to
`uint32_t`. -/

/-- `isspace` in the C locale. -/
def isspace_c (c : Char) : Bool :=
  c == ' ' || c == '\t' || c == '\n' || c == '\x0B' || c == '\x0C' || c == '\r'

def skipWs : List Char → List Char
  | [] => []
  | c :: cs => if isspace_c c then skipWs cs else c :: cs

/-- The "whitespace or comma" skip after each directive. -/
def skipWsComma : List Char → List Char
  | [] => []
  | c :: cs => if isspace_c c || c == ',' then skipWsComma cs else c :: cs

/-- Value of a digit character in the given base, if any. -/
def digitVal? (base : Nat) (c : Char) : Option Nat :=
  let d :=
    if '0' ≤ c ∧ c ≤ '9' then some (c.toNat - '0'.toNat)
    else if 'a' ≤ c ∧ c ≤ 'f' then some (c.toNat - 'a'.toNat + 10)
    else if 'A' ≤ c ∧ c ≤ 'F' then some (c.toNat - 'A'.toNat + 10)
    else none
  match d with
  | some v => if v < base then some v else none
  | none => none

/-- Consume digits of `base`, returning (value, digit count, rest). -/
def takeDigits (base : Nat) : Nat → List Char → Nat × Nat × List Char
  | acc, [] => (acc, 0, [])
  | acc, c :: cs =>
    match digitVal? base c with
    | some d =>
      let r := takeDigits base (acc * base + d) cs
      (r.1, r.2.1 + 1, r.2.2)
    | none => (acc, 0, c :: cs)

def ULONG_MAX : Nat := 2 ^ 64 - 1

/-- Finish a `strtoul` conversion: `ERANGE` when the magnitude exceeds
`ULONG_MAX`, otherwise negate modulo `2^64` under a leading minus. -/
def strtoulFin (neg : Bool) (m : Nat) (r : List Char) : Option (Nat × List Char) :=
  if m > ULONG_MAX then none
  else some ((if neg then (2 ^ 64 - m) % 2 ^ 64 else m), r)

/-- Head-character test (C code compares `*s == c`). -/
def headIsChar (c : Char) : List Char → Bool
  | d :: _ => d == c
  | [] => false

/-- Digit value of the head character, if any. -/
def headDigit? (base : Nat) : List Char → Option Nat
  | c :: _ => digitVal? base c
  | [] => none

/-- C `strtoul(s, &end, 0)`: `none` when no conversion was performed or on
`ERANGE`; otherwise the value and the rest of the input after `end`.
Base detection as in C: `0x`/`0X` followed by a hex digit selects base 16
(consuming the prefix); otherwise a leading `0` selects base 8 (the zero
itself being a digit, so `0x` without hex digits converts just the `0`);
otherwise base 10, failing if no digit follows. -/
def strtoul0 (s : List Char) : Option (Nat × List Char) :=
  let s1 := skipWs s
  let neg := headIsChar '-' s1
  let s2 := if headIsChar '-' s1 || headIsChar '+' s1 then s1.tail else s1
  if headIsChar '0' s2 then
    if (headIsChar 'x' s2.tail || headIsChar 'X' s2.tail) &&
        (headDigit? 16 s2.tail.tail).isSome then
      let t := takeDigits 16 0 s2.tail.tail
      strtoulFin neg t.1 t.2.2
    else
      let t := takeDigits 8 0 s2
      strtoulFin neg t.1 t.2.2
  else
    let t := takeDigits 10 0 s2
    if t.2.1 = 0 then none else strtoulFin neg t.1 t.2.2

example : strtoul0 "0x100".toList = some (0x100, []) := by decide
example : strtoul0 " 42abc".toList = some (42, ['a', 'b', 'c']) := by decide
example : strtoul0 "017".toList = some (15, []) := by decide
example : strtoul0 ",".toList = none := by decide
example : strtoul0 "0x".toList = some (0, ['x']) := by decide

/-- The abstract builder interface `canfilter::parse` dispatches to (the
virtual `add_*` operations); each returns an error code and an updated
builder state. -/
structure Builder (σ : Type) where
  add_std_id : σ → Nat → canfilter_error × σ
  add_ext_id : σ → Nat → canfilter_error × σ
  add_std_range : σ → Nat → Nat → canfilter_error × σ
  add_ext_range : σ → Nat → Nat → canfilter_error × σ

/-- The check `pos < len && input[pos] == '-'` of `canfilter::parse`. -/
def headIsDash : List Char → Bool
  | c :: _ => c == '-'
  | [] => false

/-- The `while (pos < len)` loop of `canfilter::parse`; the returned `Nat`
counts dispatched directives.  Error codes returned by the builder are
discarded, as in the source.  `fuel` bounds the iterations (each one
consumes at least one character). -/
def parseLoop {σ : Type} (bld : Builder σ) : Nat → σ → List Char → Nat → Bool × σ × Nat
  | 0, st, _, cnt => (true, st, cnt)
  | fuel + 1, st, s, cnt =>
    let s1 := skipWs s
    if s1.isEmpty then (true, st, cnt)
    else
      match strtoul0 s1 with
      | none => (false, st, cnt)
      | some (v1, s2) =>
        let id1 := v1 % 2 ^ 32
        let s3 := skipWs s2
        if headIsDash s3 then
          let s4 := skipWs s3.tail
          match strtoul0 s4 with
          | none => (false, st, cnt)
          | some (v2, s5) =>
            let id2 := v2 % 2 ^ 32
            if id1 ≤ max_std_id ∧ id2 ≤ max_std_id then
              parseLoop bld fuel (bld.add_std_range st id1 id2).2 (skipWsComma s5) (cnt + 1)
            else if id1 ≤ max_ext_id ∧ id2 ≤ max_ext_id then
              parseLoop bld fuel (bld.add_ext_range st id1 id2).2 (skipWsComma s5) (cnt + 1)
            else (false, st, cnt)
        else
          if id1 ≤ max_std_id then
            parseLoop bld fuel (bld.add_std_id st id1).2 (skipWsComma s3) (cnt + 1)
          else if id1 ≤ max_ext_id then
            parseLoop bld fuel (bld.add_ext_id st id1).2 (skipWsComma s3) (cnt + 1)
          else (false, st, cnt)

/-- `canfilter::parse(std::string)`: empty check, then the loop. -/
def parse {σ : Type} (bld : Builder σ) (st : σ) (s : List Char) : Bool × σ × Nat :=
  if s.isEmpty then (true, st, 0)
  else parseLoop bld (s.length + 1) st s 0

/-- A builder that accepts everything and has no state. -/
def unitBuilder : Builder Unit where
  add_std_id := fun st _ => (.success, st)
  add_ext_id := fun st _ => (.success, st)
  add_std_range := fun st _ _ => (.success, st)
  add_ext_range := fun st _ _ => (.success, st)

example : (parse unitBuilder () "0x100, 0x200-0x2FF 0x1FFFF0, 0x1FFFFF".toList) =
    (true, (), 4) := by decide
example : (parse unitBuilder () "0x1-0x200000000".toList).1 = true := by decide
example : (parse unitBuilder () "xyz".toList).1 = false := by decide

theorem skipWs_all_space : ∀ s : List Char, (∀ c ∈ s, isspace_c c = true) →
    skipWs s = [] := by
  intro s
  induction s with
  | nil => intro _; rfl
  | cons c cs ih =>
    intro h
    unfold skipWs
    rw [if_pos (h c (List.mem_cons_self c cs))]
    exact ih (fun x hx => h x (List.mem_cons_of_mem c hx))

/-- C6 as written is false for `","`: the loop skips only whitespace before
a token, the comma is not a space, and `strtoul` performs no conversion, so
`parse` returns false (with no directive dispatched). -/
theorem parse_comma_counterexample :
    (parse unitBuilder () [',']).1 = false ∧ (parse unitBuilder () [',']).2.2 = 0 := by
  decide

/-- C6 (amended): the empty string and all-whitespace strings parse to
`true` dispatching no directive and leaving the builder untouched; `","`
dispatches nothing either, but parses to `false`. -/
theorem parse_trivial_inputs {σ : Type} (bld : Builder σ) (st : σ) :
    parse bld st [] = (true, st, 0) ∧
    (∀ s : List Char, (∀ c ∈ s, isspace_c c = true) → parse bld st s = (true, st, 0)) ∧
    parse bld st [','] = (false, st, 0) := by
  refine ⟨rfl, ?_, rfl⟩
  intro s hs
  cases s with
  | nil => rfl
  | cons c cs =>
    show parseLoop bld ((c :: cs).length + 1) st (c :: cs) 0 = (true, st, 0)
    have hlen : (c :: cs).length + 1 = cs.length + 1 + 1 := by simp
    rw [hlen]
    unfold parseLoop
    rw [skipWs_all_space (c :: cs) hs]
    rfl

/-- Witness for C6 (amended) at a concrete whitespace-only input. -/
theorem parse_trivial_inputs_witness :
    parse unitBuilder () [' ', '\t'] = (true, (), 0) := by
  exact (parse_trivial_inputs unitBuilder ()).2.1 [' ', '\t'] (by decide)

/-- C9: the boolean result of `parse` — and even the number of dispatched
directives — does not depend on the builder: the error codes returned by
`add_std_id` / `add_ext_id` / `add_std_range` / `add_ext_range` are
discarded, so a builder whose calls fail with `Full` or `Param` yields the
same parse outcome (true on every syntactically valid input) as one whose
calls all succeed. -/
theorem parse_result_independent_of_builder {σ τ : Type}
    (b1 : Builder σ) (b2 : Builder τ) (st1 : σ) (st2 : τ) (s : List Char) :
    (parse b1 st1 s).1 = (parse b2 st2 s).1 ∧
    (parse b1 st1 s).2.2 = (parse b2 st2 s).2.2 := by
  have key : ∀ (fuel : Nat) {σ τ : Type} (b1 : Builder σ) (b2 : Builder τ)
      (st1 : σ) (st2 : τ) (s : List Char) (cnt : Nat),
      (parseLoop b1 fuel st1 s cnt).1 = (parseLoop b2 fuel st2 s cnt).1 ∧
      (parseLoop b1 fuel st1 s cnt).2.2 = (parseLoop b2 fuel st2 s cnt).2.2 := by
    intro fuel
    induction fuel with
    | zero => intro σ τ b1 b2 st1 st2 s cnt; exact ⟨rfl, rfl⟩
    | succ fuel ih =>
      intro σ τ b1 b2 st1 st2 s cnt
      unfold parseLoop
      by_cases hempty : (skipWs s).isEmpty = true
      · rw [if_pos hempty, if_pos hempty]
        exact ⟨rfl, rfl⟩
      · rw [if_neg hempty, if_neg hempty]
        rcases h1 : strtoul0 (skipWs s) with _ | ⟨v1, s2⟩
        · exact ⟨rfl, rfl⟩
        · dsimp only
          by_cases hdash : headIsDash (skipWs s2) = true
          · rw [if_pos hdash, if_pos hdash]
            rcases h4 : strtoul0 (skipWs (skipWs s2).tail) with _ | ⟨v2, s5⟩
            · exact ⟨rfl, rfl⟩
            · dsimp only
              by_cases ha : v1 % 2 ^ 32 ≤ max_std_id ∧ v2 % 2 ^ 32 ≤ max_std_id
              · rw [if_pos ha, if_pos ha]
                exact ih b1 b2 _ _ _ _
              · rw [if_neg ha, if_neg ha]
                by_cases hb : v1 % 2 ^ 32 ≤ max_ext_id ∧ v2 % 2 ^ 32 ≤ max_ext_id
                · rw [if_pos hb, if_pos hb]
                  exact ih b1 b2 _ _ _ _
                · rw [if_neg hb, if_neg hb]
                  exact ⟨rfl, rfl⟩
          · rw [if_neg hdash, if_neg hdash]
            by_cases ha : v1 % 2 ^ 32 ≤ max_std_id
            · rw [if_pos ha, if_pos ha]
              exact ih b1 b2 _ _ _ _
            · rw [if_neg ha, if_neg ha]
              by_cases hb : v1 % 2 ^ 32 ≤ max_ext_id
              · rw [if_pos hb, if_pos hb]
                exact ih b1 b2 _ _ _ _
              · rw [if_neg hb, if_neg hb]
                exact ⟨rfl, rfl⟩
  unfold parse
  by_cases hemp : s.isEmpty = true
  · rw [if_pos hemp, if_pos hemp]
    exact ⟨rfl, rfl⟩
  · rw [if_neg hemp, if_neg hemp]
    exact key (s.length + 1) b1 b2 st1 st2 s 0

/-! ## Orchestration (`setHardwareFilter`, claim C8)

The orchestrator is modelled over an abstract environment recording the
outcome of each external step (driver name, USB discovery and open, the
`BT_CONST` capability reply, the `GET_FILTER` identity byte, parse,
`end()`, the `SET_FILTER` transfer).  The model returns the boolean result
together with a flag telling whether the `SET_FILTER` transfer
(`programFilter`) was attempted. -/

def GS_CAN_FEATURE_FILTER : Nat := 1 <<< 16

structure HwEnv where
  driver_name : String
  usb_info_ok : Bool
  open_ok : Bool
  bt_const_ok : Bool
  feature : Nat
  filter_info : Nat
  parse_ok : Bool
  end_err : canfilter_error
  program_ok : Bool
deriving Repr, DecidableEq

/-- `canfilter_usb::hasHardwareFilter`: transfer succeeded and feature bit
16 set. -/
def hasHardwareFilter (env : HwEnv) : Bool :=
  env.bt_const_ok && (env.feature &&& GS_CAN_FEATURE_FILTER != 0)

/-- `setHardwareFilter`: the early-return sequence of `HardwareFilter.cpp`.
Note the source calls `filter->end();` discarding its result (`end_err` is
never consulted), then ships the image. -/
def setHardwareFilter (env : HwEnv) : Bool × Bool :=
  if env.driver_name ≠ "SocketCAN" then (false, false)
  else if !env.usb_info_ok then (false, false)
  else if !env.open_ok then (false, false)
  else if !hasHardwareFilter env then (false, false)
  else if env.filter_info = 1 ∨ env.filter_info = 2 ∨ env.filter_info = 3 ∨
      env.filter_info = 4 then
    if !env.parse_ok then (false, false)
    else
      let _e := env.end_err
      if !env.program_ok then (false, true)
      else (true, true)
  else (false, false)

/-- An environment in which every step succeeds except that `end()` reports
`Full`. -/
def envEndFail : HwEnv :=
  { driver_name := "SocketCAN", usb_info_ok := true, open_ok := true,
    bt_const_ok := true, feature := 1 <<< 16, filter_info := 1,
    parse_ok := true, end_err := .full, program_ok := true }

/-- C8 as written is false for the `end` step: with every other step
succeeding but `end()` returning `Full`, the orchestration still attempts
`SET_FILTER` and returns true — the result of `filter->end()` is
discarded. -/
theorem orchestrator_end_failure_ignored_counterexample :
    envEndFail.end_err ≠ .success ∧ setHardwareFilter envEndFail = (true, true) := by
  decide

/-- C8 (amended): failure of any step other than `end()` — interface
resolution, USB open, capability probe (in particular a clear feature
bit 16), filter-identity selection, parse, or the `SET_FILTER` transfer —
aborts the orchestration with `false`, and `SET_FILTER` is attempted only
after the driver check, interface resolution, open, capability probe,
identity selection and parse have all succeeded; the result of `end()` is
ignored. -/
theorem orchestrator_failure_aborts (env : HwEnv) :
    (env.driver_name ≠ "SocketCAN" → setHardwareFilter env = (false, false)) ∧
    (env.usb_info_ok = false → setHardwareFilter env = (false, false)) ∧
    (env.open_ok = false → setHardwareFilter env = (false, false)) ∧
    (hasHardwareFilter env = false → setHardwareFilter env = (false, false)) ∧
    (env.feature &&& GS_CAN_FEATURE_FILTER = 0 → setHardwareFilter env = (false, false)) ∧
    (¬(env.filter_info = 1 ∨ env.filter_info = 2 ∨ env.filter_info = 3 ∨
        env.filter_info = 4) → setHardwareFilter env = (false, false)) ∧
    (env.parse_ok = false → setHardwareFilter env = (false, false)) ∧
    (env.program_ok = false → (setHardwareFilter env).1 = false) ∧
    ((setHardwareFilter env).2 = true → env.driver_name = "SocketCAN" ∧
      env.usb_info_ok = true ∧ env.open_ok = true ∧ hasHardwareFilter env = true ∧
      (env.filter_info = 1 ∨ env.filter_info = 2 ∨ env.filter_info = 3 ∨
        env.filter_info = 4) ∧ env.parse_ok = true) ∧
    ((setHardwareFilter env).1 = true → env.program_ok = true ∧
      (setHardwareFilter env).2 = true ∧ setHardwareFilter env = setHardwareFilter
        { env with end_err := .success }) := by
  unfold setHardwareFilter hasHardwareFilter
  split_ifs <;> simp_all [GS_CAN_FEATURE_FILTER]

/-- Witness for C8 (amended): concrete aborts and a concrete success. -/
theorem orchestrator_failure_aborts_witness :
    setHardwareFilter { envEndFail with parse_ok := false } = (false, false) ∧
    setHardwareFilter { envEndFail with feature := 0 } = (false, false) := by
  constructor
  · exact (orchestrator_failure_aborts { envEndFail with parse_ok := false }).2.2.2.2.2.2.1 rfl
  · exact (orchestrator_failure_aborts { envEndFail with feature := 0 }).2.2.2.2.1 (by decide)

/-! ## Adequacy of the iteration bounds

The `fuel` arguments only bound the loop iteration counts: past the actual
number of iterations the result no longer depends on them, and the bounds
supplied by `rangeBlocks`, `add_std_range` and `add_ext_range` are
sufficient. -/

theorem rb_go_congr (W e : Nat) : ∀ n m b, e + 1 - b ≤ n → e + 1 - b ≤ m →
    rb_go W e n b = rb_go W e m b := by
  intro n
  induction n with
  | zero =>
    intro m b hn _
    rw [rb_go_nil W e 0 b (by omega), rb_go_nil W e m b (by omega)]
  | succ n ih =>
    intro m b hn hm
    cases m with
    | zero =>
      rw [rb_go_nil W e _ b (by omega), rb_go_nil W e 0 b (by omega)]
    | succ m =>
      by_cases hbe : b ≤ e
      · show rb_go W e (n + 1) b = rb_go W e (m + 1) b
        unfold rb_go
        simp only [if_pos hbe]
        have hpos := Nat.two_pow_pos (W - largest_pfx W b e)
        rw [ih m (b + 2 ^ (W - largest_pfx W b e)) (by omega) (by omega)]
      · rw [rb_go_nil W e _ b (by omega), rb_go_nil W e _ b (by omega)]

theorem std_range_go_congr (B : Nat) : ∀ n m st b e, e + 1 - b ≤ n → e + 1 - b ≤ m →
    std_range_go B n st b e = std_range_go B m st b e := by
  intro n
  induction n with
  | zero =>
    intro m st b e hn hm
    cases m with
    | zero => rfl
    | succ m =>
      show (.success, st) = std_range_go B (m + 1) st b e
      unfold std_range_go
      rw [if_neg (by omega)]
  | succ n ih =>
    intro m st b e hn hm
    cases m with
    | zero =>
      show std_range_go B (n + 1) st b e = (.success, st)
      unfold std_range_go
      rw [if_neg (by omega)]
    | succ m =>
      by_cases hbe : b ≤ e
      · show std_range_go B (n + 1) st b e = std_range_go B (m + 1) st b e
        unfold std_range_go
        simp only [if_pos hbe]
        have hpos := Nat.two_pow_pos (11 - largest_pfx 11 b e)
        by_cases hmk : blockMask 11 (largest_pfx 11 b e) = max_std_id
        · simp only [if_pos hmk]
          by_cases hs : (add_std_list B st b).1 = canfilter_error.success
          · simp only [if_pos hs]
            rw [ih m _ _ _ (by omega) (by omega)]
          · simp only [if_neg hs]
        · simp only [if_neg hmk]
          by_cases hs : (add_std_mask B st b (blockMask 11 (largest_pfx 11 b e))).1 =
              canfilter_error.success
          · simp only [if_pos hs]
            rw [ih m _ _ _ (by omega) (by omega)]
          · simp only [if_neg hs]
      · show std_range_go B (n + 1) st b e = std_range_go B (m + 1) st b e
        unfold std_range_go
        simp only [if_neg hbe]

theorem ext_range_go_congr (B : Nat) : ∀ n m st b e, e + 1 - b ≤ n → e + 1 - b ≤ m →
    ext_range_go B n st b e = ext_range_go B m st b e := by
  intro n
  induction n with
  | zero =>
    intro m st b e hn hm
    cases m with
    | zero => rfl
    | succ m =>
      show (.success, st) = ext_range_go B (m + 1) st b e
      unfold ext_range_go
      rw [if_neg (by omega)]
  | succ n ih =>
    intro m st b e hn hm
    cases m with
    | zero =>
      show ext_range_go B (n + 1) st b e = (.success, st)
      unfold ext_range_go
      rw [if_neg (by omega)]
    | succ m =>
      by_cases hbe : b ≤ e
      · show ext_range_go B (n + 1) st b e = ext_range_go B (m + 1) st b e
        unfold ext_range_go
        simp only [if_pos hbe]
        have hpos := Nat.two_pow_pos (29 - largest_pfx 29 b e)
        by_cases hmk : blockMask 29 (largest_pfx 29 b e) = max_ext_id
        · simp only [if_pos hmk]
          by_cases hs : (add_ext_list B st b).1 = canfilter_error.success
          · simp only [if_pos hs]
            rw [ih m _ _ _ (by omega) (by omega)]
          · simp only [if_neg hs]
        · simp only [if_neg hmk]
          by_cases hs : (add_ext_mask B st b (blockMask 29 (largest_pfx 29 b e))).1 =
              canfilter_error.success
          · simp only [if_pos hs]
            rw [ih m _ _ _ (by omega) (by omega)]
          · simp only [if_neg hs]
      · show ext_range_go B (n + 1) st b e = ext_range_go B (m + 1) st b e
        unfold ext_range_go
        simp only [if_neg hbe]

/-! ## The decomposition loop processes exactly the blocks of `rangeBlocks`

`add_std_range` / `add_ext_range` are the short-circuiting left folds of
the accumulator inserts over the pure block sequences proved exact (C1)
and minimal (C2). -/

/-- Feed std blocks to the accumulators, stopping at the first failure. -/
def runStdBlocks (B : Nat) (st : BxState) : List (Nat × Nat) → canfilter_error × BxState
  | [] => (.success, st)
  | blk :: rest =>
    let r := if blk.2 = max_std_id then add_std_list B st blk.1
      else add_std_mask B st blk.1 blk.2
    if r.1 = .success then runStdBlocks B r.2 rest else r

/-- Feed ext blocks to the accumulators, stopping at the first failure. -/
def runExtBlocks (B : Nat) (st : BxState) : List (Nat × Nat) → canfilter_error × BxState
  | [] => (.success, st)
  | blk :: rest =>
    let r := if blk.2 = max_ext_id then add_ext_list B st blk.1
      else add_ext_mask B st blk.1 blk.2
    if r.1 = .success then runExtBlocks B r.2 rest else r

theorem std_range_go_eq_runStdBlocks (B e : Nat) : ∀ fuel st b,
    std_range_go B fuel st b e = runStdBlocks B st (rb_go 11 e fuel b) := by
  intro fuel
  induction fuel with
  | zero => intro st b; rfl
  | succ fuel ih =>
    intro st b
    unfold std_range_go rb_go
    by_cases hbe : b ≤ e
    · simp only [if_pos hbe]
      unfold runStdBlocks
      by_cases hmk : blockMask 11 (largest_pfx 11 b e) = max_std_id
      · simp only [if_pos hmk]
        by_cases hs : (add_std_list B st b).1 = canfilter_error.success
        · simp only [if_pos hs]
          exact ih _ _
        · simp only [if_neg hs]
      · simp only [if_neg hmk]
        by_cases hs : (add_std_mask B st b (blockMask 11 (largest_pfx 11 b e))).1 =
            canfilter_error.success
        · simp only [if_pos hs]
          exact ih _ _
        · simp only [if_neg hs]
    · simp only [if_neg hbe]
      rfl

theorem ext_range_go_eq_runExtBlocks (B e : Nat) : ∀ fuel st b,
    ext_range_go B fuel st b e = runExtBlocks B st (rb_go 29 e fuel b) := by
  intro fuel
  induction fuel with
  | zero => intro st b; rfl
  | succ fuel ih =>
    intro st b
    unfold ext_range_go rb_go
    by_cases hbe : b ≤ e
    · simp only [if_pos hbe]
      unfold runExtBlocks
      by_cases hmk : blockMask 29 (largest_pfx 29 b e) = max_ext_id
      · simp only [if_pos hmk]
        by_cases hs : (add_ext_list B st b).1 = canfilter_error.success
        · simp only [if_pos hs]
          exact ih _ _
        · simp only [if_neg hs]
      · simp only [if_neg hmk]
        by_cases hs : (add_ext_mask B st b (blockMask 29 (largest_pfx 29 b e))).1 =
            canfilter_error.success
        · simp only [if_pos hs]
          exact ih _ _
        · simp only [if_neg hs]
    · simp only [if_neg hbe]
      rfl

/-- `add_std_range` runs exactly the blocks of `rangeBlocks` through the
accumulators (after the param check and endpoint swap); analogously for
`add_ext_range`. -/
theorem add_range_eq_runBlocks (B : Nat) (st : BxState) (a e : Nat) :
    (a ≤ max_std_id → e ≤ max_std_id →
      add_std_range B st a e = runStdBlocks B st (rangeBlocks 11 (min a e) (max a e))) ∧
    (a ≤ max_ext_id → e ≤ max_ext_id →
      add_ext_range B st a e = runExtBlocks B st (rangeBlocks 29 (min a e) (max a e))) := by
  constructor
  · intro ha he
    unfold add_std_range rangeBlocks
    rw [if_neg (by omega)]
    exact std_range_go_eq_runStdBlocks B (max a e) _ st (min a e)
  · intro ha he
    unfold add_ext_range rangeBlocks
    rw [if_neg (by omega)]
    exact ext_range_go_eq_runExtBlocks B (max a e) _ st (min a e)

/-! ## Fuel adequacy for the parser

`parseLoop` is driven by a fuel bound (`parse` passes `s.length + 1`); the
lemmas below show every `strtoul0` success consumes at least one character,
so the loop's result is independent of the bound once it exceeds the input
length. -/

theorem skipWs_length_le (s : List Char) : (skipWs s).length ≤ s.length := by
  induction s with
  | nil => simp [skipWs]
  | cons c cs ih =>
    simp only [skipWs]
    split
    · exact le_trans ih (by simp)
    · exact le_refl _

theorem skipWsComma_length_le (s : List Char) :
    (skipWsComma s).length ≤ s.length := by
  induction s with
  | nil => simp [skipWsComma]
  | cons c cs ih =>
    simp only [skipWsComma]
    split
    · exact le_trans ih (by simp)
    · exact le_refl _

theorem takeDigits_length_le (base : Nat) : ∀ (acc : Nat) (s : List Char),
    (takeDigits base acc s).2.2.length ≤ s.length := by
  intro acc s
  induction s generalizing acc with
  | nil => simp [takeDigits]
  | cons c cs ih =>
    simp only [takeDigits]
    split
    · exact le_trans (ih _) (by simp)
    · exact le_refl _

theorem takeDigits_length_lt (base acc : Nat) (c : Char) (cs : List Char) (d : Nat)
    (h : digitVal? base c = some d) :
    (takeDigits base acc (c :: cs)).2.2.length < (c :: cs).length := by
  simp only [takeDigits, h, List.length_cons]
  exact Nat.lt_succ_of_le (takeDigits_length_le base _ cs)

theorem takeDigits_pos_lt (base acc : Nat) (s : List Char)
    (h : (takeDigits base acc s).2.1 ≠ 0) :
    (takeDigits base acc s).2.2.length < s.length := by
  cases s with
  | nil => simp [takeDigits] at h
  | cons c cs =>
    rcases hd : digitVal? base c with _ | d
    · exact absurd (by simp [takeDigits, hd]) h
    · exact takeDigits_length_lt base acc c cs d hd

theorem strtoulFin_rest (neg : Bool) (m : Nat) (r : List Char) (v : Nat) (r' : List Char)
    (h : strtoulFin neg m r = some (v, r')) : r' = r := by
  unfold strtoulFin at h
  split at h
  · exact absurd h (by simp)
  · simp at h
    exact h.2.symm

theorem headIsChar_eq_true {c : Char} {s : List Char} (h : headIsChar c s = true) :
    ∃ cs, s = c :: cs := by
  cases s with
  | nil => simp [headIsChar] at h
  | cons d cs =>
    simp [headIsChar] at h
    exact ⟨cs, by rw [h]⟩

theorem strtoul0_length : ∀ {s : List Char} {v : Nat} {r : List Char},
    strtoul0 s = some (v, r) → r.length < s.length := by
  intro s v r h
  have hs1 : (skipWs s).length ≤ s.length := skipWs_length_le s
  unfold strtoul0 at h
  dsimp only at h
  have hs2 : (if headIsChar '-' (skipWs s) || headIsChar '+' (skipWs s)
      then (skipWs s).tail else skipWs s).length ≤ (skipWs s).length := by
    split
    · simp [List.length_tail]
    · exact le_refl _
  generalize hg : (if headIsChar '-' (skipWs s) || headIsChar '+' (skipWs s)
      then (skipWs s).tail else skipWs s) = s2 at h hs2
  split at h
  · -- leading '0'
    rename_i h0
    obtain ⟨cs2, hcs2⟩ := headIsChar_eq_true h0
    split at h
    · -- hex prefix
      rename_i hx
      have hr := strtoulFin_rest _ _ _ _ _ h
      have hxx : headIsChar 'x' s2.tail = true ∨ headIsChar 'X' s2.tail = true := by
        have hx' := hx
        simp only [Bool.and_eq_true, Bool.or_eq_true] at hx'
        exact hx'.1
      have htail : ∃ c3 cs3, s2.tail = c3 :: cs3 := by
        rcases hxx with hx1 | hx1
        · obtain ⟨cs3, h3⟩ := headIsChar_eq_true hx1
          exact ⟨_, _, h3⟩
        · obtain ⟨cs3, h3⟩ := headIsChar_eq_true hx1
          exact ⟨_, _, h3⟩
      obtain ⟨c3, cs3, h3⟩ := htail
      have hlen : (takeDigits 16 0 s2.tail.tail).2.2.length ≤ s2.tail.tail.length :=
        takeDigits_length_le 16 0 _
      rw [hr]
      have : s2.tail.tail.length + 2 = s2.length := by
        rw [hcs2] at h3 ⊢
        simp at h3
        simp [h3]
      omega
    · -- octal
      have hr := strtoulFin_rest _ _ _ _ _ h
      have hlt : (takeDigits 8 0 s2).2.2.length < s2.length := by
        rw [hcs2]
        exact takeDigits_length_lt 8 0 '0' cs2 0 (by decide)
      rw [hr]
      omega
  · -- decimal
    split at h
    · exact absurd h (by simp)
    · rename_i hne
      have hr := strtoulFin_rest _ _ _ _ _ h
      have hlt := takeDigits_pos_lt 10 0 s2 hne
      rw [hr]
      omega

/-- The parse loop's result does not depend on the fuel bound once the
bound exceeds the input length: each iteration consumes at least one
character. -/
theorem parseLoop_fuel_congr {σ : Type} (bld : Builder σ) :
    ∀ (n : Nat) (st : σ) (s : List Char) (cnt : Nat) (m : Nat),
    s.length < n → s.length < m →
    parseLoop bld n st s cnt = parseLoop bld m st s cnt := by
  intro n
  induction n with
  | zero =>
    intro st s cnt m hn _
    exact absurd hn (Nat.not_lt_zero _)
  | succ fuel ih =>
    intro st s cnt m hn hm
    cases m with
    | zero => exact absurd hm (Nat.not_lt_zero _)
    | succ m' =>
      unfold parseLoop
      by_cases hempty : (skipWs s).isEmpty = true
      · rw [if_pos hempty, if_pos hempty]
      · rw [if_neg hempty, if_neg hempty]
        rcases h1 : strtoul0 (skipWs s) with _ | ⟨v1, s2⟩
        · rfl
        · dsimp only
          have hs2 : s2.length < s.length :=
            lt_of_lt_of_le (strtoul0_length h1) (skipWs_length_le s)
          by_cases hdash : headIsDash (skipWs s2) = true
          · rw [if_pos hdash, if_pos hdash]
            rcases h4 : strtoul0 (skipWs (skipWs s2).tail) with _ | ⟨v2, s5⟩
            · rfl
            · dsimp only
              have hs5 : s5.length < s2.length := by
                have h5 := strtoul0_length h4
                have h6 := skipWs_length_le (skipWs s2).tail
                have h7 := skipWs_length_le s2
                have h8 : (skipWs s2).tail.length ≤ (skipWs s2).length := by
                  simp [List.length_tail]
                omega
              have hnext : (skipWsComma s5).length < s.length := by
                have := skipWsComma_length_le s5
                omega
              by_cases ha : v1 % 2 ^ 32 ≤ max_std_id ∧ v2 % 2 ^ 32 ≤ max_std_id
              · rw [if_pos ha, if_pos ha]
                exact ih _ _ _ m' (by omega) (by omega)
              · rw [if_neg ha, if_neg ha]
                by_cases hb : v1 % 2 ^ 32 ≤ max_ext_id ∧ v2 % 2 ^ 32 ≤ max_ext_id
                · rw [if_pos hb, if_pos hb]
                  exact ih _ _ _ m' (by omega) (by omega)
                · rw [if_neg hb, if_neg hb]
          · rw [if_neg hdash, if_neg hdash]
            have hnext : (skipWsComma (skipWs s2)).length < s.length := by
              have := skipWsComma_length_le (skipWs s2)
              have := skipWs_length_le s2
              omega
            by_cases ha : v1 % 2 ^ 32 ≤ max_std_id
            · rw [if_pos ha, if_pos ha]
              exact ih _ _ _ m' (by omega) (by omega)
            · rw [if_neg ha, if_neg ha]
              by_cases hb : v1 % 2 ^ 32 ≤ max_ext_id
              · rw [if_pos hb, if_pos hb]
                exact ih _ _ _ m' (by omega) (by omega)
              · rw [if_neg hb, if_neg hb]

/-- `parse` computed with any sufficiently large fuel bound agrees with the
definition's choice of `s.length + 1`. -/
theorem parse_eq_parseLoop {σ : Type} (bld : Builder σ) (st : σ) (s : List Char)
    (n : Nat) (hn : s.length < n) (hs : s.isEmpty = false) :
    parse bld st s = parseLoop bld n st s 0 := by
  unfold parse
  rw [if_neg (by simp [hs])]
  exact parseLoop_fuel_congr bld (s.length + 1) st s 0 n (by omega) hn
